import Mathlib

/-!
Shallow embedding of `validator.py` (package-delivery solution validator).

Conventions of the embedding:
* JSON coordinates `[x, y]` become `Coord := Int × Int`.
* Python dicts keyed by strings become total functions `String → α`
  (with an `Option` codomain where the source can hold `None` or miss a key);
  dict update is `strUpdate`, which is last-write-wins like Python assignment.
* A raw action record from the log is `ActionData`, with one `Option` field
  per JSON key the source reads; `none` models an absent key.  Reading an
  absent required key raises `KeyError` in the source, which the action loop
  catches and converts into one error message plus a 10-unit penalty; the
  embedding produces that outcome directly at the point of the read
  (all such reads in the source happen before any state mutation of the
  same handler, so the net effect on the state is identical).
* `self.output_data` is sorted with `sorted(..., key=lambda x: x["time"])`,
  which raises an uncaught `KeyError` when any record lacks `"time"`; the
  driver `validateSolution` therefore returns `Except.error` in that case,
  modelling the crash of the whole process.
* Python's `set` of strings iterates in an order that depends on the
  per-process hash seed; the only place this is observable is the
  `", ".join(undelivered)` summary message, so the pipeline takes an
  `enumOrder` parameter giving the iteration order of that one set
  (the penalty uses only the set's size and is order-independent).
* Error-message text follows the source f-strings (ASCII-only punctuation).
-/

abbrev Coord := Int × Int

structure Location where
  id : String
  ltype : String
  coordinates : Coord
  capacity : Option Int
deriving Repr, DecidableEq

structure Courier where
  id : String
  start_location : String
  capacity : Int
deriving Repr, DecidableEq

structure Package where
  id : String
  origin : String
  destination : String
  arrival_time : Int
deriving Repr, DecidableEq

structure InputData where
  dimensions : Coord
  locations : List Location
  couriers : List Courier
  packages : List Package
deriving Repr, DecidableEq

/-- Run-time record kept in `self.package_status[pid]`. -/
structure PackageState where
  status : String
  location : String
  arrival_time : Int
  delivery_time : Option Int
deriving Repr, DecidableEq

/-- Raw record of the action log; `none` models an absent JSON key.
`fromPos`/`toPos` embed the `"from"`/`"to"` keys. -/
structure ActionData where
  time : Option Int := none
  courier : Option String := none
  action : Option String := none
  location : Option String := none
  packages : Option (List String) := none
  fromPos : Option Coord := none
  toPos : Option Coord := none
deriving Repr, DecidableEq

/-- Mutable state of the `Validator` object during `validate_solution`. -/
structure VState where
  courier_positions : String → Option Coord
  courier_packages : String → List String
  package_status : String → PackageState
  package_point_contents : String → List String
  delivered_packages : List String
  errors : List String
  completion_time : Int
  undelivered_penalty : Int
  invalid_action_penalty : Int

/-- Immutable lookup tables built by `initialize_tracking` from the input. -/
structure Ctx where
  locations : String → Option Location
  couriers : String → Option Courier
  packages : String → Option Package
  locationList : List Location

/-- Python dict assignment `m[k] = v` (last write wins). -/
def strUpdate (m : String → α) (k : String) (v : α) : String → α :=
  fun q => if q = k then v else m q

/-- Dict built by iterating a list and assigning by id (later entries win). -/
def dictOfList (key : α → String) (l : List α) : String → Option α :=
  l.foldl (fun m x => strUpdate m (key x) (some x)) (fun _ => none)

def mkCtx (inp : InputData) : Ctx :=
  { locations := dictOfList Location.id inp.locations
    couriers := dictOfList Courier.id inp.couriers
    packages := dictOfList Package.id inp.packages
    locationList := inp.locations }

/-- Embeds `_get_location_coordinates`: first match in the input location list. -/
def getLocationCoordinates (ctx : Ctx) (lid : String) : Option Coord :=
  (ctx.locationList.find? (fun l => l.id == lid)).map Location.coordinates

/-- Keys of the `self.packages` dict: first-occurrence order, no duplicates. -/
def pkgKeys (inp : InputData) : List String :=
  inp.packages.foldl (fun acc p => if p.id ∈ acc then acc else acc ++ [p.id]) []

def emptyState : VState :=
  { courier_positions := fun _ => none
    courier_packages := fun _ => []
    package_status := fun _ => ⟨"", "", 0, none⟩
    package_point_contents := fun _ => []
    delivered_packages := []
    errors := []
    completion_time := 0
    undelivered_penalty := 0
    invalid_action_penalty := 0 }

/-- Embeds `initialize_tracking` (run-time part; lookup tables live in `Ctx`). -/
def initState (inp : InputData) (ctx : Ctx) : VState :=
  { emptyState with
    courier_positions :=
      inp.couriers.foldl
        (fun m c => strUpdate m c.id (getLocationCoordinates ctx c.start_location))
        (fun _ => none)
    package_status :=
      inp.packages.foldl
        (fun m p => strUpdate m p.id ⟨"at_warehouse", p.origin, p.arrival_time, none⟩)
        (fun _ => ⟨"", "", 0, none⟩) }

/-- Record one error message and add the fixed 10-unit invalid-action penalty. -/
def addInvalid (s : VState) (msg : String) : VState :=
  { s with errors := s.errors ++ [msg]
           invalid_action_penalty := s.invalid_action_penalty + 10 }

/-- Embeds `_is_valid_move`: one cell horizontally, vertically, or diagonally. -/
def isValidMove (fromPos toPos : Coord) : Bool :=
  let dx := (toPos.1 - fromPos.1).natAbs
  let dy := (toPos.2 - fromPos.2).natAbs
  decide (dx ≤ 1) && decide (dy ≤ 1) && (decide (0 < dx) || decide (0 < dy))

/-- Embeds Python `set(l1) == set(l2)` on string lists. -/
def listSetEq (l1 l2 : List String) : Bool :=
  l1.all (fun x => decide (x ∈ l2)) && l2.all (fun x => decide (x ∈ l1))

/-- Body of the per-package loop of `_process_pickup`. -/
def pickupOne (ctx : Ctx) (cid lid : String) (time : Int) (s : VState)
    (pid : String) : VState :=
  match ctx.packages pid with
  | none => addInvalid s ("Invalid package ID: " ++ pid)
  | some pkg =>
    if pkg.origin ≠ lid then
      addInvalid s ("Package " ++ pid ++ " origin is not " ++ lid)
    else if (s.package_status pid).status ≠ "at_warehouse" then
      addInvalid s ("Package " ++ pid ++ " is not at warehouse")
    else if time < pkg.arrival_time then
      addInvalid s ("Package " ++ pid ++ " has not arrived yet at time " ++ toString time)
    else
      { s with
        package_status :=
          strUpdate s.package_status pid
            { s.package_status pid with status := "with_courier", location := cid }
        courier_packages :=
          strUpdate s.courier_packages cid (s.courier_packages cid ++ [pid]) }

/-- Per-package loop of `_process_pickup`. -/
def pickupLoop (ctx : Ctx) (cid lid : String) (time : Int) (s : VState) :
    List String → VState
  | [] => s
  | pid :: rest => pickupLoop ctx cid lid time (pickupOne ctx cid lid time s pid) rest

/-- Embeds `_process_pickup` (after the courier-id extraction in the loop). -/
def processPickup (ctx : Ctx) (cid : String) (time : Int) (a : ActionData)
    (s : VState) : VState :=
  match a.location with
  | none => addInvalid s "Missing required field in action: location"
  | some lid =>
    match getLocationCoordinates ctx lid with
    | none => addInvalid s ("Invalid location ID: " ++ lid)
    | some lpos =>
      if s.courier_positions cid ≠ some lpos then
        addInvalid s ("Courier " ++ cid ++ " is not at location " ++ lid)
      else
        match ctx.locations lid with
        | none => addInvalid s ("Missing required field in action: " ++ lid)
        | some loc =>
          if loc.ltype ≠ "warehouse" then
            addInvalid s ("Cannot pick up from non-warehouse location: " ++ lid)
          else
            match ctx.couriers cid with
            | none => addInvalid s ("Missing required field in action: " ++ cid)
            | some cou =>
              if ((s.courier_packages cid).length + (a.packages.getD []).length : Int) > cou.capacity then
                addInvalid s ("Exceeding courier capacity for " ++ cid)
              else
                pickupLoop ctx cid lid time s (a.packages.getD [])

/-- Body of the per-package loop of `_process_dropoff`. -/
def dropoffOne (cid lid : String) (s : VState) (pid : String) : VState :=
  if pid ∈ s.courier_packages cid then
    { s with
      package_status :=
        strUpdate s.package_status pid
          { s.package_status pid with status := "at_package_point", location := lid }
      courier_packages :=
        strUpdate s.courier_packages cid ((s.courier_packages cid).erase pid)
      package_point_contents :=
        strUpdate s.package_point_contents lid (s.package_point_contents lid ++ [pid]) }
  else
    addInvalid s ("Courier " ++ cid ++ " does not have package " ++ pid)

/-- Per-package loop of `_process_dropoff`. -/
def dropoffLoop (cid lid : String) (s : VState) : List String → VState
  | [] => s
  | pid :: rest => dropoffLoop cid lid (dropoffOne cid lid s pid) rest

/-- Embeds `_process_dropoff`. -/
def processDropoff (ctx : Ctx) (cid : String) (a : ActionData) (s : VState) : VState :=
  match a.location with
  | none => addInvalid s "Missing required field in action: location"
  | some lid =>
    match getLocationCoordinates ctx lid with
    | none => addInvalid s ("Invalid location ID: " ++ lid)
    | some lpos =>
      if s.courier_positions cid ≠ some lpos then
        addInvalid s ("Courier " ++ cid ++ " is not at location " ++ lid)
      else
        match ctx.locations lid with
        | none => addInvalid s ("Missing required field in action: " ++ lid)
        | some loc =>
          if loc.ltype ≠ "package_point" then
            addInvalid s ("Cannot drop off at non-package-point location: " ++ lid)
          else
            match loc.capacity with
            | none => addInvalid s "Missing required field in action: capacity"
            | some cap =>
              if ((s.package_point_contents lid).length + (a.packages.getD []).length : Int) > cap then
                addInvalid s ("Exceeding package point capacity for " ++ lid)
              else
                dropoffLoop cid lid s (a.packages.getD [])

/-- Per-package loop of `_process_deliver`; an unknown package id raises
`KeyError`, aborting the rest of the batch (caught by the action loop). -/
def deliverLoop (ctx : Ctx) (cid lid : String) (time : Int) (s : VState) :
    List String → VState
  | [] => s
  | pid :: rest =>
    if pid ∈ s.courier_packages cid then
      match ctx.packages pid with
      | none => addInvalid s ("Missing required field in action: " ++ pid)
      | some pkg =>
        if pkg.destination ≠ lid then
          deliverLoop ctx cid lid time
            (addInvalid s ("Package " ++ pid ++ " destination is not " ++ lid)) rest
        else
          deliverLoop ctx cid lid time
            { s with
              package_status :=
                strUpdate s.package_status pid
                  { s.package_status pid with
                      status := "delivered", location := lid, delivery_time := some time }
              courier_packages :=
                strUpdate s.courier_packages cid ((s.courier_packages cid).erase pid)
              delivered_packages :=
                if pid ∈ s.delivered_packages then s.delivered_packages
                else s.delivered_packages ++ [pid] } rest
    else
      deliverLoop ctx cid lid time
        (addInvalid s ("Courier " ++ cid ++ " does not have package " ++ pid)) rest

/-- Embeds `_process_deliver`. -/
def processDeliver (ctx : Ctx) (cid : String) (time : Int) (a : ActionData)
    (s : VState) : VState :=
  match a.location with
  | none => addInvalid s "Missing required field in action: location"
  | some lid =>
    match getLocationCoordinates ctx lid with
    | none => addInvalid s ("Invalid location ID: " ++ lid)
    | some lpos =>
      if s.courier_positions cid ≠ some lpos then
        addInvalid s ("Courier " ++ cid ++ " is not at location " ++ lid)
      else
        match ctx.locations lid with
        | none => addInvalid s ("Missing required field in action: " ++ lid)
        | some loc =>
          if loc.ltype ≠ "destination" then
            addInvalid s ("Cannot deliver to non-destination location: " ++ lid)
          else
            deliverLoop ctx cid lid time s (a.packages.getD [])

/-- Embeds `_process_move`. -/
def processMove (cid : String) (a : ActionData) (s : VState) : VState :=
  match a.fromPos with
  | none => addInvalid s "Missing required field in action: from"
  | some f =>
    match a.toPos with
    | none => addInvalid s "Missing required field in action: to"
    | some t =>
      if s.courier_positions cid ≠ some f then
        addInvalid s ("Courier " ++ cid ++ " is not at position " ++ toString f)
      else if ! isValidMove f t then
        addInvalid s ("Invalid move from " ++ toString f ++ " to " ++ toString t)
      else if ! listSetEq (a.packages.getD []) (s.courier_packages cid) then
        addInvalid s ("Packages in move action do not match what courier " ++ cid ++ " is carrying")
      else
        { s with courier_positions := strUpdate s.courier_positions cid (some t) }

/-- Embeds the `wait` branch of the action loop (empty id is falsy in Python). -/
def processWait (ctx : Ctx) (a : ActionData) (s : VState) : VState :=
  match a.location with
  | none => s
  | some lid =>
    if lid ≠ "" ∧ ctx.locations lid = none then
      addInvalid s ("Invalid location ID for wait action: " ++ lid)
    else s

/-- Embeds one iteration of the action loop of `validate_solution`, with the
`try`/`except` converted into explicit handling of absent keys. -/
def processAction (ctx : Ctx) (s : VState) (a : ActionData) : VState :=
  match a.time with
  | none => addInvalid s "Missing required field in action: time"
  | some time =>
    match a.courier with
    | none => addInvalid s "Missing required field in action: courier"
    | some cid =>
      match a.action with
      | none => addInvalid s "Missing required field in action: action"
      | some act =>
        let s1 := { s with completion_time :=
          if time > s.completion_time then time else s.completion_time }
        if (ctx.couriers cid).isNone then
          addInvalid s1 ("Invalid courier ID: " ++ cid)
        else if act = "pick_up" then processPickup ctx cid time a s1
        else if act = "drop_off" then processDropoff ctx cid a s1
        else if act = "deliver" then processDeliver ctx cid time a s1
        else if act = "move" then processMove cid a s1
        else if act = "wait" then processWait ctx a s1
        else addInvalid s1 ("Invalid action type: " ++ act)

/-- Comparison key of `sorted(self.output_data, key=lambda x: x["time"])`;
only applied once every record is known to carry `"time"`. -/
def timeLe (a b : ActionData) : Bool :=
  decide (a.time.getD 0 ≤ b.time.getD 0)

/-- Stable insertion: `a` goes in front of the first element it is `≤` to,
so elements with equal time keep their original relative order. -/
def insertByTime (a : ActionData) : List ActionData → List ActionData
  | [] => [a]
  | b :: rest => if timeLe a b then a :: b :: rest else b :: insertByTime a rest

/-- Stable sort by ascending `"time"`; behaviorally equal to Python's stable
`sorted(..., key=lambda x: x["time"])` on records that all carry `"time"`. -/
def sortByTime : List ActionData → List ActionData
  | [] => []
  | a :: rest => insertByTime a (sortByTime rest)

/-- Embeds the sort of the action log.  Python's `sorted` evaluates the key on
every record first, so a record without `"time"` raises an uncaught
`KeyError`, crashing the run; that is the `Except.error` branch. -/
def sortActions (out : List ActionData) : Except String (List ActionData) :=
  if out.all (fun a => a.time.isSome) then
    Except.ok (sortByTime out)
  else
    Except.error "KeyError: time"

/-- Set difference `set(self.packages.keys()) - self.delivered_packages`,
listed in the first-insertion order of the package dict. -/
def undeliveredList (inp : InputData) (s : VState) : List String :=
  (pkgKeys inp).filter (fun pid => decide (pid ∉ s.delivered_packages))

def undeliveredMsg (order : List String) : String :=
  "Undelivered packages: " ++ String.intercalate ", " order

/-- Final sweep of `validate_solution`: undelivered penalty and summary
message.  `enumOrder` is the iteration order of the Python set in the
`", ".join`; the penalty uses only the size of the set. -/
def sweepUndelivered (enumOrder : List String → List String) (inp : InputData)
    (s : VState) : VState :=
  let und := undeliveredList inp s
  let s2 := { s with undelivered_penalty := 100 * (und.length : Int) }
  if und.isEmpty then s2
  else { s2 with errors := s2.errors ++ [undeliveredMsg (enumOrder und)] }

/-- Embeds `validate_solution` after a successful `load_data`; returns
`Except.error` when the whole process crashes (record without `"time"`). -/
def validateSolution (enumOrder : List String → List String) (inp : InputData)
    (out : List ActionData) : Except String VState :=
  let ctx := mkCtx inp
  match sortActions out with
  | Except.error e => Except.error e
  | Except.ok acts =>
    Except.ok (sweepUndelivered enumOrder inp (acts.foldl (processAction ctx) (initState inp ctx)))

/-- Report dictionary returned by `calculate_score`. -/
structure Report where
  score : Int
  completion_time : Int
  undelivered_penalty : Int
  invalid_action_penalty : Int
  errors : List String
  warnings : List String
  delivered_packages : Nat
  total_packages : Nat
  is_valid : Bool
deriving Repr, DecidableEq

/-- Embeds `calculate_score`. -/
def calculateScore (s : VState) (totalPackages : Nat) : Report :=
  { score := s.completion_time + s.undelivered_penalty + s.invalid_action_penalty
    completion_time := s.completion_time
    undelivered_penalty := s.undelivered_penalty
    invalid_action_penalty := s.invalid_action_penalty
    errors := s.errors
    warnings := []
    delivered_packages := s.delivered_packages.length
    total_packages := totalPackages
    is_valid := s.errors.isEmpty }

/-- Embeds `validate_and_score` (after a successful `load_data`). -/
def validateAndScore (enumOrder : List String → List String) (inp : InputData)
    (out : List ActionData) : Except String Report :=
  match validateSolution enumOrder inp out with
  | Except.error e => Except.error e
  | Except.ok s => Except.ok (calculateScore s (pkgKeys inp).length)

/-- Report printed when `load_data` fails: `validate_solution` returns early
with the single load error, and `calculate_score` still runs on the pristine
state (`self.packages` is still the empty dict). -/
def loadErrorReport (msg : String) : Report :=
  calculateScore { emptyState with errors := ["Error loading files: " ++ msg] } 0

/-- Embeds `main` from the two parsed documents onwards: `loaded` is the
outcome of `load_data` (`Except.error` = unreadable/unparsable file).  The
result pairs the printed report with the process exit code; `Except.error`
models an uncaught exception (no report printed, non-zero exit). -/
def runMain (enumOrder : List String → List String)
    (loaded : Except String (InputData × List ActionData)) :
    Except String (Report × Nat) :=
  match loaded with
  | Except.error msg => Except.ok (loadErrorReport msg, 1)
  | Except.ok (inp, out) =>
    match validateAndScore enumOrder inp out with
    | Except.error e => Except.error e
    | Except.ok r => Except.ok (r, if r.is_valid then 0 else 1)

/-! Concrete fixtures: the one-courier map used by the spec's first scenario
(warehouse `W1` at the origin, package point `P1` beside it, destination
`D1` two cells away, courier `C1` of capacity 1, one package `PKG1`). -/

def inpA : InputData :=
  { dimensions := (3, 1)
    locations := [⟨"W1", "warehouse", (0, 0), none⟩,
                  ⟨"P1", "package_point", (1, 0), some 1⟩,
                  ⟨"D1", "destination", (2, 0), none⟩]
    couriers := [⟨"C1", "W1", 1⟩]
    packages := [⟨"PKG1", "W1", "D1", 0⟩] }

/-- Same map with a second package, to exercise the undelivered summary. -/
def inpB : InputData :=
  { inpA with packages := [⟨"PKG1", "W1", "D1", 0⟩, ⟨"PKG2", "W1", "D1", 0⟩] }

/-- Fully valid log: pick up, step to (1,0), step to (2,0), deliver at time 3. -/
def goodLog : List ActionData :=
  [ { time := some 0, courier := some "C1", action := some "pick_up",
      location := some "W1", packages := some ["PKG1"] },
    { time := some 1, courier := some "C1", action := some "move",
      fromPos := some (0, 0), toPos := some (1, 0), packages := some ["PKG1"] },
    { time := some 2, courier := some "C1", action := some "move",
      fromPos := some (1, 0), toPos := some (2, 0), packages := some ["PKG1"] },
    { time := some 3, courier := some "C1", action := some "deliver",
      location := some "D1", packages := some ["PKG1"] } ]

/-- Log that drops `PKG1` at the package point and then tries to pick it
back up there (the re-collection the spec's transition graph describes). -/
def recollectLog : List ActionData :=
  [ { time := some 0, courier := some "C1", action := some "pick_up",
      location := some "W1", packages := some ["PKG1"] },
    { time := some 1, courier := some "C1", action := some "move",
      fromPos := some (0, 0), toPos := some (1, 0), packages := some ["PKG1"] },
    { time := some 2, courier := some "C1", action := some "drop_off",
      location := some "P1", packages := some ["PKG1"] },
    { time := some 3, courier := some "C1", action := some "pick_up",
      location := some "P1", packages := some ["PKG1"] } ]

/-- Action record that carries every field except `"time"`. -/
def noTimeAction : ActionData :=
  { courier := some "C1", action := some "wait", location := some "W1" }

/-- State whose only package `PKG1` rests at package point `P1`. -/
def statePP : VState :=
  { emptyState with
    package_status := strUpdate emptyState.package_status "PKG1" ⟨"at_package_point", "P1", 0, none⟩ }

/-- State with the single courier `C1` standing at the origin, empty-handed. -/
def stateC1 : VState :=
  { emptyState with
    courier_positions := strUpdate emptyState.courier_positions "C1" (some (0, 0)) }

/-- Unit move action record from (0,0) to (1,0) carrying nothing. -/
def moveA : ActionData :=
  { time := some 1, courier := some "C1", action := some "move",
    fromPos := some (0, 0), toPos := some (1, 0), packages := some [] }

/-- Unit move action record stepping diagonally off the grid to (-1,-1). -/
def moveNeg : ActionData :=
  { time := some 1, courier := some "C1", action := some "move",
    fromPos := some (0, 0), toPos := some (-1, -1), packages := some [] }

/-- State with the single courier `C1` standing on the package point (1,0). -/
def stateAtP1 : VState :=
  { emptyState with
    courier_positions := strUpdate emptyState.courier_positions "C1" (some (1, 0)) }

/-- Drop-off record listing two packages at the capacity-1 point `P1`. -/
def dropTwoA : ActionData :=
  { time := some 0, courier := some "C1", action := some "drop_off",
    location := some "P1", packages := some ["A", "B"] }

/-- Report of the fully valid run `goodLog` on `inpA`. -/
def reportGood : Report :=
  { score := 3, completion_time := 3, undelivered_penalty := 0,
    invalid_action_penalty := 0, errors := [], warnings := [],
    delivered_packages := 1, total_packages := 1, is_valid := true }

/-- Report of `inpB` (two packages) on the empty log. -/
def reportB : Report :=
  { score := 200, completion_time := 0, undelivered_penalty := 200,
    invalid_action_penalty := 0,
    errors := ["Undelivered packages: PKG1, PKG2"], warnings := [],
    delivered_packages := 0, total_packages := 2, is_valid := false }

/-- Report of `inpA` (one package) on the empty log. -/
def reportEmptyA : Report :=
  { score := 100, completion_time := 0, undelivered_penalty := 100,
    invalid_action_penalty := 0,
    errors := ["Undelivered packages: PKG1"], warnings := [],
    delivered_packages := 0, total_packages := 1, is_valid := false }

/-- Report of `inpB` on the empty log when the undelivered set happens to be
enumerated in reversed order (a different per-process hash seed). -/
def reportBrev : Report :=
  { reportB with errors := ["Undelivered packages: PKG2, PKG1"] }

/-- State reached after folding the sorted action log from the initial state
(the state `validate_solution` holds just before the undelivered sweep). -/
def runFold (inp : InputData) (out : List ActionData) : VState :=
  (sortByTime out).foldl (processAction (mkCtx inp)) (initState inp (mkCtx inp))

/-- Bookkeeping invariant of the delivered set: no duplicates and every
member is a known package id. -/
def DeliveredInv (ctx : Ctx) (s : VState) : Prop :=
  s.delivered_packages.Nodup ∧
  ∀ pid ∈ s.delivered_packages, (ctx.packages pid).isSome = true

/-- Status values on which a pick-up can never act. -/
def OffCourierStatus (pid : String) (s : VState) : Prop :=
  (s.package_status pid).status = "at_package_point" ∨
  (s.package_status pid).status = "delivered"

/-- Invariant of claim C8 for couriers: every known courier carries at most
its capacity. -/
def CourierCapInv (ctx : Ctx) (s : VState) : Prop :=
  ∀ cid cou, ctx.couriers cid = some cou →
    ((s.courier_packages cid).length : Int) ≤ cou.capacity

/-- Invariant of claim C8 for package points: every known package_point
holds at most its declared capacity. -/
def PointCapInv (ctx : Ctx) (s : VState) : Prop :=
  ∀ lid loc cap, ctx.locations lid = some loc → loc.ltype = "package_point" →
    loc.capacity = some cap →
    ((s.package_point_contents lid).length : Int) ≤ cap

/-- Spec-side statement of the move-legality conditions of claim C7: the
courier stands on `f`, `t` is at Chebyshev distance exactly one from `f`,
and the listed packages are set-equal to the carried ones. -/
def MoveConds (s : VState) (cid : String) (f t : Coord) (pkgs : List String) : Prop :=
  s.courier_positions cid = some f ∧
  max (t.1 - f.1).natAbs (t.2 - f.2).natAbs = 1 ∧
  ∀ x, x ∈ pkgs ↔ x ∈ s.courier_packages cid

/-! Small simp lemmas about the state operations. -/

@[simp] theorem addInvalid_package_status (s : VState) (m : String) :
    (addInvalid s m).package_status = s.package_status := rfl

@[simp] theorem addInvalid_courier_positions (s : VState) (m : String) :
    (addInvalid s m).courier_positions = s.courier_positions := rfl

@[simp] theorem addInvalid_courier_packages (s : VState) (m : String) :
    (addInvalid s m).courier_packages = s.courier_packages := rfl

@[simp] theorem addInvalid_package_point_contents (s : VState) (m : String) :
    (addInvalid s m).package_point_contents = s.package_point_contents := rfl

@[simp] theorem addInvalid_delivered_packages (s : VState) (m : String) :
    (addInvalid s m).delivered_packages = s.delivered_packages := rfl

@[simp] theorem addInvalid_completion_time (s : VState) (m : String) :
    (addInvalid s m).completion_time = s.completion_time := rfl

@[simp] theorem addInvalid_undelivered_penalty (s : VState) (m : String) :
    (addInvalid s m).undelivered_penalty = s.undelivered_penalty := rfl

@[simp] theorem addInvalid_errors (s : VState) (m : String) :
    (addInvalid s m).errors = s.errors ++ [m] := rfl

@[simp] theorem addInvalid_invalid_action_penalty (s : VState) (m : String) :
    (addInvalid s m).invalid_action_penalty = s.invalid_action_penalty + 10 := rfl

theorem strUpdate_apply {α : Type} (m : String → α) (k v q) :
    strUpdate m k v q = if q = k then v else m q := rfl

@[simp] theorem strUpdate_self {α : Type} (m : String → α) (k v) :
    strUpdate m k v k = v := by simp [strUpdate]

theorem strUpdate_other {α : Type} (m : String → α) (k v q) (h : q ≠ k) :
    strUpdate m k v q = m q := by simp [strUpdate, h]

/-! Status machine: once a package's stored status is `at_package_point` (or
`delivered`), no handler can set it back to `with_courier`, because the only
assignment of `with_courier` (in the pick-up loop) is guarded by the check
that the current status is exactly `at_warehouse`. -/

theorem offCourier_addInvalid {pid : String} (s : VState) (m : String)
    (h : OffCourierStatus pid s) : OffCourierStatus pid (addInvalid s m) := by
  simpa [OffCourierStatus] using h

theorem pickupOne_offCourier {pid : String} (ctx : Ctx) (cid lid : String)
    (t : Int) (s : VState) (q : String) (h : OffCourierStatus pid s) :
    OffCourierStatus pid (pickupOne ctx cid lid t s q) := by
  unfold pickupOne
  rcases hq : ctx.packages q with _ | pkg
  · exact offCourier_addInvalid _ _ h
  · dsimp only
    split_ifs with h1 h2 h3
    · exact offCourier_addInvalid _ _ h
    · exact offCourier_addInvalid _ _ h
    · exact offCourier_addInvalid _ _ h
    · push_neg at h2
      rcases eq_or_ne pid q with rfl | hne
      · rcases h with h | h <;> rw [h2] at h <;> exact absurd h (by decide)
      · unfold OffCourierStatus at h ⊢
        simpa [strUpdate, hne] using h

theorem pickupLoop_offCourier {pid : String} (ctx : Ctx) (cid lid : String)
    (t : Int) :
    ∀ (pkgs : List String) (s : VState), OffCourierStatus pid s →
      OffCourierStatus pid (pickupLoop ctx cid lid t s pkgs)
  | [], _, h => h
  | q :: rest, s, h =>
    pickupLoop_offCourier ctx cid lid t rest (pickupOne ctx cid lid t s q)
      (pickupOne_offCourier ctx cid lid t s q h)

theorem dropoffOne_offCourier {pid : String} (cid lid : String) (s : VState)
    (q : String) (h : OffCourierStatus pid s) :
    OffCourierStatus pid (dropoffOne cid lid s q) := by
  unfold dropoffOne
  split_ifs with h1
  · rcases eq_or_ne pid q with rfl | hne
    · left; simp [strUpdate]
    · unfold OffCourierStatus at h ⊢
      simpa [strUpdate, hne] using h
  · simpa [OffCourierStatus] using h

theorem dropoffLoop_offCourier {pid : String} (cid lid : String) :
    ∀ (pkgs : List String) (s : VState), OffCourierStatus pid s →
      OffCourierStatus pid (dropoffLoop cid lid s pkgs)
  | [], _, h => h
  | q :: rest, s, h =>
    dropoffLoop_offCourier cid lid rest (dropoffOne cid lid s q)
      (dropoffOne_offCourier cid lid s q h)

theorem deliverLoop_offCourier {pid : String} (ctx : Ctx) (cid lid : String)
    (t : Int) :
    ∀ (pkgs : List String) (s : VState), OffCourierStatus pid s →
      OffCourierStatus pid (deliverLoop ctx cid lid t s pkgs) := by
  intro pkgs
  induction pkgs with
  | nil => intro s h; exact h
  | cons q rest ih =>
    intro s h
    unfold deliverLoop
    by_cases h1 : q ∈ s.courier_packages cid
    · rw [if_pos h1]
      rcases hq : ctx.packages q with _ | pkg
      · exact offCourier_addInvalid _ _ h
      · dsimp only
        by_cases h2 : pkg.destination ≠ lid
        · rw [if_pos h2]
          exact ih _ (offCourier_addInvalid _ _ h)
        · rw [if_neg h2]
          refine ih _ ?_
          rcases eq_or_ne pid q with rfl | hne
          · right; simp [strUpdate]
          · unfold OffCourierStatus at h ⊢
            simpa [strUpdate, hne] using h
    · rw [if_neg h1]
      exact ih _ (offCourier_addInvalid _ _ h)

theorem processPickup_offCourier {pid : String} (ctx : Ctx) (cid : String)
    (t : Int) (a : ActionData) (s : VState) (h : OffCourierStatus pid s) :
    OffCourierStatus pid (processPickup ctx cid t a s) := by
  unfold processPickup
  repeat' split
  all_goals first
    | exact offCourier_addInvalid _ _ h
    | exact pickupLoop_offCourier ctx cid _ t _ s h

theorem processDropoff_offCourier {pid : String} (ctx : Ctx) (cid : String)
    (a : ActionData) (s : VState) (h : OffCourierStatus pid s) :
    OffCourierStatus pid (processDropoff ctx cid a s) := by
  unfold processDropoff
  repeat' split
  all_goals first
    | exact offCourier_addInvalid _ _ h
    | exact dropoffLoop_offCourier cid _ _ s h

theorem processDeliver_offCourier {pid : String} (ctx : Ctx) (cid : String)
    (t : Int) (a : ActionData) (s : VState) (h : OffCourierStatus pid s) :
    OffCourierStatus pid (processDeliver ctx cid t a s) := by
  unfold processDeliver
  repeat' split
  all_goals first
    | exact offCourier_addInvalid _ _ h
    | exact deliverLoop_offCourier ctx cid _ t _ s h

theorem processMove_offCourier {pid : String} (cid : String) (a : ActionData)
    (s : VState) (h : OffCourierStatus pid s) :
    OffCourierStatus pid (processMove cid a s) := by
  unfold processMove
  repeat' split
  all_goals first
    | exact offCourier_addInvalid _ _ h
    | exact h

theorem processWait_offCourier {pid : String} (ctx : Ctx) (a : ActionData)
    (s : VState) (h : OffCourierStatus pid s) :
    OffCourierStatus pid (processWait ctx a s) := by
  unfold processWait
  repeat' split
  all_goals first
    | exact offCourier_addInvalid _ _ h
    | exact h

theorem processAction_offCourier {pid : String} (ctx : Ctx) (s : VState)
    (a : ActionData) (h : OffCourierStatus pid s) :
    OffCourierStatus pid (processAction ctx s a) := by
  unfold processAction
  repeat' split
  all_goals first
    | exact offCourier_addInvalid _ _ h
    | exact processPickup_offCourier ctx _ _ a _ h
    | exact processDropoff_offCourier ctx _ a _ h
    | exact processDeliver_offCourier ctx _ _ a _ h
    | exact processMove_offCourier _ a _ h
    | exact processWait_offCourier ctx a _ h

theorem foldl_offCourier {pid : String} (ctx : Ctx) :
    ∀ (acts : List ActionData) (s : VState), OffCourierStatus pid s →
      OffCourierStatus pid (acts.foldl (processAction ctx) s)
  | [], _, h => h
  | a :: rest, s, h =>
    foldl_offCourier ctx rest (processAction ctx s a)
      (processAction_offCourier ctx s a h)

/-- C1. The spec's transition graph allows `at_package_point → with_courier`
("a courier can re-collect it from the package point").  The code refutes
this: the pick-up handler demands a warehouse location and a package whose
stored status is exactly `at_warehouse`, and no other handler ever assigns
`with_courier`, so a package whose status is `at_package_point` can never
return to `with_courier` under any action sequence, from any state. -/
theorem packagePoint_never_back_to_courier (ctx : Ctx) (s : VState)
    (acts : List ActionData) (pid : String)
    (h : (s.package_status pid).status = "at_package_point") :
    ((acts.foldl (processAction ctx) s).package_status pid).status ≠ "with_courier" := by
  rcases foldl_offCourier ctx acts s (Or.inl h) with k | k <;> rw [k] <;> decide

/-- C1 witness: `PKG1` resting at `P1` stays off the courier across the
re-collection log. -/
theorem packagePoint_never_back_to_courier_witness :
    (statePP.package_status "PKG1").status = "at_package_point" ∧
    ((recollectLog.foldl (processAction (mkCtx inpA)) statePP).package_status "PKG1").status
      ≠ "with_courier" :=
  ⟨rfl, packagePoint_never_back_to_courier (mkCtx inpA) statePP recollectLog "PKG1" rfl⟩

/-- C1 counterexample: executing the spec's re-collection scenario end to
end, the attempted pick-up at the package point produces the
non-warehouse-location error and the package's status stays
`at_package_point`, so it is counted undelivered. -/
theorem recollect_attempt_fails :
    (validateSolution id inpA recollectLog).toOption.map
        (fun s => ((s.package_status "PKG1").status, s.errors)) =
      some ("at_package_point",
            ["Cannot pick up from non-warehouse location: P1",
             "Undelivered packages: PKG1"]) := by
  decide

/-- C2. Amended behaviour on a load failure: one load-error message is
recorded and the process exits with code 1, but a full report body is still
produced and printed — score 0, all three components 0, delivered/total 0,
`is_valid` false — rather than no report at all. -/
theorem load_failure_still_reports (o : List String → List String) (msg : String) :
    runMain o (Except.error msg) =
      Except.ok ({ score := 0, completion_time := 0, undelivered_penalty := 0,
                   invalid_action_penalty := 0,
                   errors := ["Error loading files: " ++ msg], warnings := [],
                   delivered_packages := 0, total_packages := 0,
                   is_valid := false }, 1) := rfl

/-- C2 counterexample: on a concrete load failure the run still emits a
report body carrying a score and components, refuting "no report body (no
score, no components) is emitted". -/
theorem load_failure_report_not_suppressed :
    runMain id (Except.error "No such file or directory") =
      Except.ok (loadErrorReport "No such file or directory", 1) ∧
    (loadErrorReport "No such file or directory").score = 0 ∧
    (loadErrorReport "No such file or directory").errors ≠ [] :=
  ⟨rfl, rfl, by decide⟩

/-- C3. Amended behaviour for records missing required fields: as long as
every record carries `"time"`, the run never aborts, and a record missing
another required key (shown here for `"courier"` and `"action"`) yields
exactly one error message plus one 10-unit penalty and leaves the rest of
the state untouched, after which processing continues with the next action;
but a record missing `"time"` crashes the whole run inside the initial sort
(uncaught `KeyError`), so it does abort — contrary to the claim. -/
theorem missing_field_penalized_except_time
    (o : List String → List String) (inp : InputData) (out : List ActionData)
    (ctx : Ctx) (s : VState) (a : ActionData) :
    ((∀ b ∈ out, b.time.isSome = true) →
      ∃ st, validateSolution o inp out = Except.ok st) ∧
    ((∃ b ∈ out, b.time = none) →
      validateSolution o inp out = Except.error "KeyError: time") ∧
    (a.time.isSome = true → a.courier = none →
      processAction ctx s a = addInvalid s "Missing required field in action: courier") ∧
    (a.time.isSome = true → a.courier.isSome = true → a.action = none →
      processAction ctx s a = addInvalid s "Missing required field in action: action") ∧
    (∀ rest : List ActionData,
      (a :: rest).foldl (processAction ctx) s = rest.foldl (processAction ctx) (processAction ctx s a)) := by
  refine ⟨?_, ?_, ?_, ?_, fun rest => rfl⟩
  · intro hall
    have : out.all (fun b => b.time.isSome) = true := by
      rw [List.all_eq_true]; exact hall
    refine ⟨sweepUndelivered o inp
      (List.foldl (processAction (mkCtx inp)) (initState inp (mkCtx inp)) (sortByTime out)), ?_⟩
    simp [validateSolution, sortActions, this]
  · rintro ⟨b, hb, hnone⟩
    have : out.all (fun b => b.time.isSome) = false := by
      rw [List.all_eq_false]
      exact ⟨b, hb, by simp [hnone]⟩
    simp [validateSolution, sortActions, this]
  · intro ht hc
    rcases hts : a.time with _ | tv
    · rw [hts] at ht; simp at ht
    · unfold processAction; rw [hts, hc]
  · intro ht hc ha
    rcases hts : a.time with _ | tv
    · rw [hts] at ht; simp at ht
    · rcases hcs : a.courier with _ | cv
      · rw [hcs] at hc; simp at hc
      · unfold processAction; rw [hts, hcs, ha]

/-- C3 witness: the fully timed `goodLog` never aborts, and a concrete
record `{time: 5}` with no `"courier"` key is penalized in place. -/
theorem missing_field_penalized_except_time_witness :
    (∃ st, validateSolution id inpA goodLog = Except.ok st) ∧
    processAction (mkCtx inpA) emptyState { time := some 5 } =
      addInvalid emptyState "Missing required field in action: courier" :=
  ⟨(missing_field_penalized_except_time id inpA goodLog (mkCtx inpA) emptyState
      { time := some 5 }).1 (by decide),
   (missing_field_penalized_except_time id inpA goodLog (mkCtx inpA) emptyState
      { time := some 5 }).2.2.1 rfl rfl⟩

/-- C3 counterexample: one action record lacking only `"time"` makes the
whole evaluation abort (the sort's `KeyError` is not caught), instead of
being recorded as one error with a 10-unit penalty. -/
theorem missing_time_aborts_run :
    validateSolution id inpA [noTimeAction] = Except.error "KeyError: time" ∧
    runMain id (Except.ok (inpA, [noTimeAction])) = Except.error "KeyError: time" :=
  ⟨rfl, rfl⟩

/-! Move characterization: helper lemmas shared by the move-related claims. -/

theorem isValidMove_iff (f t : Coord) :
    isValidMove f t = true ↔ max (t.1 - f.1).natAbs (t.2 - f.2).natAbs = 1 := by
  unfold isValidMove
  simp only [Bool.and_eq_true, Bool.or_eq_true, decide_eq_true_eq]
  omega

theorem listSetEq_iff (l1 l2 : List String) :
    listSetEq l1 l2 = true ↔ ∀ x, x ∈ l1 ↔ x ∈ l2 := by
  unfold listSetEq
  simp only [Bool.and_eq_true, List.all_eq_true, decide_eq_true_eq]
  constructor
  · rintro ⟨h1, h2⟩ x
    exact ⟨fun hx => h1 x hx, fun hx => h2 x hx⟩
  · intro h
    exact ⟨fun x hx => (h x).1 hx, fun x hx => (h x).2 hx⟩

theorem processMove_success (s : VState) (cid : String) (f t : Coord)
    (pkgs : List String) (a : ActionData)
    (hf : a.fromPos = some f) (ht : a.toPos = some t) (hp : a.packages = some pkgs)
    (hc : MoveConds s cid f t pkgs) :
    processMove cid a s =
      { s with courier_positions := strUpdate s.courier_positions cid (some t) } := by
  obtain ⟨h1, h2, h3⟩ := hc
  unfold processMove
  rw [hf, ht]
  dsimp only
  rw [if_neg (by simp [h1]), hp]
  simp only [Option.getD_some]
  rw [if_neg (by simp [(isValidMove_iff f t).mpr h2]),
      if_neg (by simp [(listSetEq_iff pkgs (s.courier_packages cid)).mpr h3])]

theorem processMove_fail (s : VState) (cid : String) (f t : Coord)
    (pkgs : List String) (a : ActionData)
    (hf : a.fromPos = some f) (ht : a.toPos = some t) (hp : a.packages = some pkgs)
    (hc : ¬ MoveConds s cid f t pkgs) :
    ∃ msg, processMove cid a s = addInvalid s msg := by
  by_cases h1 : s.courier_positions cid = some f
  · by_cases h2 : isValidMove f t = true
    · by_cases h3 : listSetEq pkgs (s.courier_packages cid) = true
      · exact absurd ⟨h1, (isValidMove_iff f t).mp h2,
          (listSetEq_iff pkgs (s.courier_packages cid)).mp h3⟩ hc
      · refine ⟨"Packages in move action do not match what courier " ++ cid ++ " is carrying", ?_⟩
        unfold processMove
        rw [hf, ht]
        dsimp only
        rw [if_neg (by simp [h1]), hp]
        simp only [Option.getD_some]
        rw [if_neg (by simp [h2]), if_pos (by simp [h3])]
    · refine ⟨"Invalid move from " ++ toString f ++ " to " ++ toString t, ?_⟩
      unfold processMove
      rw [hf, ht]
      dsimp only
      rw [if_neg (by simp [h1])]
      rw [if_pos (by simp [h2])]
  · refine ⟨"Courier " ++ cid ++ " is not at position " ++ toString f, ?_⟩
    unfold processMove
    rw [hf, ht]
    dsimp only
    rw [if_pos h1]

/-- C7. A move with all three fields present succeeds exactly when the
courier stands on `from`, `to` is one Chebyshev step away, and the listed
packages are set-equal to the carried ones; on success the one and only
state change is the courier's position becoming `to` (exact record
equality), and on any violation the state is exactly `addInvalid s msg` for
a single message: one error, a 10-unit penalty, position unchanged. -/
theorem move_success_characterization (s : VState) (cid : String) (f t : Coord)
    (pkgs : List String) (a : ActionData)
    (hf : a.fromPos = some f) (ht : a.toPos = some t) (hp : a.packages = some pkgs) :
    (MoveConds s cid f t pkgs →
      processMove cid a s =
        { s with courier_positions := strUpdate s.courier_positions cid (some t) }) ∧
    (¬ MoveConds s cid f t pkgs →
      ∃ msg, processMove cid a s = addInvalid s msg) :=
  ⟨processMove_success s cid f t pkgs a hf ht hp,
   processMove_fail s cid f t pkgs a hf ht hp⟩

/-- C7 witness: a concrete legal step from (0,0) to (1,0) by an
empty-handed courier updates only the position. -/
theorem move_success_characterization_witness :
    processMove "C1" moveA stateC1 =
      { stateC1 with
        courier_positions := strUpdate stateC1.courier_positions "C1" (some (1, 0)) } :=
  (move_success_characterization stateC1 "C1" (0, 0) (1, 0) [] moveA rfl rfl rfl).1
    ⟨rfl, by decide, by intro x; simp [stateC1, emptyState]⟩

/-- C9. A drop_off whose listed packages would overflow the package point's
capacity is rejected as a whole batch: the resulting state is exactly
`addInvalid s msg` — one error message, one 10-unit penalty, and every other
component (courier's carried set, the point's contents, every package's
status) unchanged; no listed package moves. -/
theorem dropoff_over_capacity_atomic_reject (ctx : Ctx) (cid lid : String)
    (a : ActionData) (s : VState) (loc : Location) (cap : Int) (lpos : Coord)
    (pkgs : List String)
    (hl : a.location = some lid) (hpk : a.packages = some pkgs)
    (hco : getLocationCoordinates ctx lid = some lpos)
    (hpos : s.courier_positions cid = some lpos)
    (hloc : ctx.locations lid = some loc)
    (hty : loc.ltype = "package_point")
    (hcap : loc.capacity = some cap)
    (hover : cap < ((s.package_point_contents lid).length + pkgs.length : Int)) :
    processDropoff ctx cid a s =
      addInvalid s ("Exceeding package point capacity for " ++ lid) := by
  unfold processDropoff
  rw [hl]
  dsimp only
  rw [hco]
  dsimp only
  rw [if_neg (by simp [hpos]), hloc]
  dsimp only
  rw [if_neg (by simp [hty]), hcap]
  dsimp only
  rw [hpk]
  simp only [Option.getD_some]
  rw [if_pos hover]

/-- C9 witness: dropping two packages on the capacity-1 point `P1` from the
adjacent state is rejected atomically. -/
theorem dropoff_over_capacity_atomic_reject_witness :
    processDropoff (mkCtx inpA) "C1" dropTwoA stateAtP1 =
      addInvalid stateAtP1 "Exceeding package point capacity for P1" :=
  dropoff_over_capacity_atomic_reject (mkCtx inpA) "C1" "P1" dropTwoA stateAtP1
    ⟨"P1", "package_point", (1, 0), some 1⟩ 1 (1, 0) ["A", "B"]
    rfl rfl (by decide) rfl (by decide) rfl rfl (by decide)

/-- C10. Move legality never consults the map's dimensions: the whole
evaluation is unchanged when only the declared dimensions differ, and a move
meeting the three conditions (position match, Chebyshev distance one,
matching package set) succeeds with the courier's position becoming `to`
for an arbitrary `to` — including coordinates outside the grid or negative. -/
theorem move_ignores_map_dimensions
    (o : List String → List String) (inp : InputData) (out : List ActionData)
    (d d' : Coord) (s : VState) (cid : String) (f t : Coord)
    (pkgs : List String) (a : ActionData)
    (hf : a.fromPos = some f) (ht : a.toPos = some t) (hp : a.packages = some pkgs)
    (hc : MoveConds s cid f t pkgs) :
    (validateAndScore o { inp with dimensions := d } out =
      validateAndScore o { inp with dimensions := d' } out) ∧
    processMove cid a s =
      { s with courier_positions := strUpdate s.courier_positions cid (some t) } :=
  ⟨rfl, processMove_success s cid f t pkgs a hf ht hp hc⟩

/-- C10 witness: the report for `goodLog` is identical under dimensions
(5,5) and (1000,7), and a step to the negative coordinate (-1,-1) succeeds. -/
theorem move_ignores_map_dimensions_witness :
    (validateAndScore id { inpA with dimensions := (5, 5) } goodLog =
      validateAndScore id { inpA with dimensions := (1000, 7) } goodLog) ∧
    processMove "C1" moveNeg stateC1 =
      { stateC1 with
        courier_positions := strUpdate stateC1.courier_positions "C1" (some (-1, -1)) } :=
  move_ignores_map_dimensions id inpA goodLog (5, 5) (1000, 7) stateC1 "C1"
    (0, 0) (-1, -1) [] moveNeg rfl rfl rfl
    ⟨rfl, by decide, by intro x; simp [stateC1, emptyState]⟩

/-! Capacity invariants: which handler touches which state component, and by
how much the touched lists can grow. -/

theorem foldl_dict_mem {α : Type} (key : α → String) :
    ∀ (l : List α) (m : String → Option α) (sid : String) (v : α),
      (l.foldl (fun m x => strUpdate m (key x) (some x)) m) sid = some v →
      m sid = some v ∨ v ∈ l
  | [], _, _, _, h => Or.inl h
  | x :: rest, m, sid, v, h => by
    rcases foldl_dict_mem key rest (strUpdate m (key x) (some x)) sid v h with h' | h'
    · by_cases hx : sid = key x
      · subst hx
        rw [strUpdate_self] at h'
        injection h' with h''
        subst h''
        exact Or.inr (List.mem_cons_self x rest)
      · rw [strUpdate_other _ _ _ _ hx] at h'
        exact Or.inl h'
    · exact Or.inr (List.mem_cons_of_mem x h')

theorem dictOfList_mem {α : Type} (key : α → String) (l : List α) (sid : String)
    (v : α) (h : dictOfList key l sid = some v) : v ∈ l := by
  rcases foldl_dict_mem key l (fun _ => none) sid v h with h' | h'
  · cases h'
  · exact h'

theorem pickupOne_ppc (ctx : Ctx) (cid lid : String) (t : Int) (s : VState) (q : String) :
    (pickupOne ctx cid lid t s q).package_point_contents = s.package_point_contents := by
  unfold pickupOne
  repeat' split
  all_goals rfl

theorem pickupOne_cp_other (ctx : Ctx) (cid lid : String) (t : Int) (s : VState)
    (q : String) (c : String) (hc : c ≠ cid) :
    (pickupOne ctx cid lid t s q).courier_packages c = s.courier_packages c := by
  unfold pickupOne
  repeat' split
  all_goals simp [strUpdate, hc]

theorem pickupOne_cp_len (ctx : Ctx) (cid lid : String) (t : Int) (s : VState) (q : String) :
    ((pickupOne ctx cid lid t s q).courier_packages cid).length ≤
      (s.courier_packages cid).length + 1 := by
  unfold pickupOne
  repeat' split
  all_goals simp [strUpdate]

theorem pickupLoop_ppc (ctx : Ctx) (cid lid : String) (t : Int) :
    ∀ (pkgs : List String) (s : VState),
      (pickupLoop ctx cid lid t s pkgs).package_point_contents = s.package_point_contents
  | [], _ => rfl
  | q :: rest, s => by
    rw [show pickupLoop ctx cid lid t s (q :: rest) =
          pickupLoop ctx cid lid t (pickupOne ctx cid lid t s q) rest from rfl,
        pickupLoop_ppc ctx cid lid t rest (pickupOne ctx cid lid t s q),
        pickupOne_ppc]

theorem pickupLoop_cp_other (ctx : Ctx) (cid lid : String) (t : Int) (c : String)
    (hc : c ≠ cid) :
    ∀ (pkgs : List String) (s : VState),
      (pickupLoop ctx cid lid t s pkgs).courier_packages c = s.courier_packages c
  | [], _ => rfl
  | q :: rest, s => by
    rw [show pickupLoop ctx cid lid t s (q :: rest) =
          pickupLoop ctx cid lid t (pickupOne ctx cid lid t s q) rest from rfl,
        pickupLoop_cp_other ctx cid lid t c hc rest (pickupOne ctx cid lid t s q),
        pickupOne_cp_other ctx cid lid t s q c hc]

theorem pickupLoop_cp_len (ctx : Ctx) (cid lid : String) (t : Int) :
    ∀ (pkgs : List String) (s : VState),
      ((pickupLoop ctx cid lid t s pkgs).courier_packages cid).length ≤
        (s.courier_packages cid).length + pkgs.length
  | [], _ => Nat.le_refl _
  | q :: rest, s => by
    have h1 := pickupLoop_cp_len ctx cid lid t rest (pickupOne ctx cid lid t s q)
    have h2 := pickupOne_cp_len ctx cid lid t s q
    rw [show pickupLoop ctx cid lid t s (q :: rest) =
          pickupLoop ctx cid lid t (pickupOne ctx cid lid t s q) rest from rfl]
    simp only [List.length_cons]
    omega

theorem dropoffOne_cp_le (cid lid : String) (s : VState) (q : String) (c : String) :
    ((dropoffOne cid lid s q).courier_packages c).length ≤ (s.courier_packages c).length := by
  unfold dropoffOne
  split_ifs with h1
  · by_cases hc : c = cid
    · subst hc
      simpa [strUpdate] using (List.erase_sublist q (s.courier_packages c)).length_le
    · simp [strUpdate, hc]
  · exact Nat.le_refl _

theorem dropoffOne_ppc_other (cid lid : String) (s : VState) (q : String)
    (l : String) (hl : l ≠ lid) :
    (dropoffOne cid lid s q).package_point_contents l = s.package_point_contents l := by
  unfold dropoffOne
  split_ifs with h1
  · simp [strUpdate, hl]
  · rfl

theorem dropoffOne_ppc_len (cid lid : String) (s : VState) (q : String) :
    ((dropoffOne cid lid s q).package_point_contents lid).length ≤
      (s.package_point_contents lid).length + 1 := by
  unfold dropoffOne
  split_ifs with h1
  · simp [strUpdate]
  · simp

theorem dropoffLoop_cp_le (cid lid : String) (c : String) :
    ∀ (pkgs : List String) (s : VState),
      ((dropoffLoop cid lid s pkgs).courier_packages c).length ≤
        (s.courier_packages c).length
  | [], _ => Nat.le_refl _
  | q :: rest, s =>
    Nat.le_trans (dropoffLoop_cp_le cid lid c rest (dropoffOne cid lid s q))
      (dropoffOne_cp_le cid lid s q c)

theorem dropoffLoop_ppc_other (cid lid : String) (l : String) (hl : l ≠ lid) :
    ∀ (pkgs : List String) (s : VState),
      (dropoffLoop cid lid s pkgs).package_point_contents l = s.package_point_contents l
  | [], _ => rfl
  | q :: rest, s => by
    rw [show dropoffLoop cid lid s (q :: rest) =
          dropoffLoop cid lid (dropoffOne cid lid s q) rest from rfl,
        dropoffLoop_ppc_other cid lid l hl rest (dropoffOne cid lid s q),
        dropoffOne_ppc_other cid lid s q l hl]

theorem dropoffLoop_ppc_len (cid lid : String) :
    ∀ (pkgs : List String) (s : VState),
      ((dropoffLoop cid lid s pkgs).package_point_contents lid).length ≤
        (s.package_point_contents lid).length + pkgs.length
  | [], _ => Nat.le_refl _
  | q :: rest, s => by
    have h1 := dropoffLoop_ppc_len cid lid rest (dropoffOne cid lid s q)
    have h2 := dropoffOne_ppc_len cid lid s q
    rw [show dropoffLoop cid lid s (q :: rest) =
          dropoffLoop cid lid (dropoffOne cid lid s q) rest from rfl]
    simp only [List.length_cons]
    omega

theorem deliverLoop_cp_le (ctx : Ctx) (cid lid : String) (t : Int) (c : String) :
    ∀ (pkgs : List String) (s : VState),
      ((deliverLoop ctx cid lid t s pkgs).courier_packages c).length ≤
        (s.courier_packages c).length := by
  intro pkgs
  induction pkgs with
  | nil => intro s; exact Nat.le_refl _
  | cons q rest ih =>
    intro s
    unfold deliverLoop
    by_cases h1 : q ∈ s.courier_packages cid
    · rw [if_pos h1]
      rcases ctx.packages q with _ | pkg
      · exact Nat.le_refl _
      · dsimp only
        by_cases h2 : pkg.destination ≠ lid
        · rw [if_pos h2]; exact ih _
        · rw [if_neg h2]
          refine Nat.le_trans (ih _) ?_
          by_cases hc : c = cid
          · subst hc
            simpa [strUpdate] using (List.erase_sublist q (s.courier_packages c)).length_le
          · simp [strUpdate, hc]
    · rw [if_neg h1]
      exact ih _

theorem deliverLoop_ppc (ctx : Ctx) (cid lid : String) (t : Int) :
    ∀ (pkgs : List String) (s : VState),
      (deliverLoop ctx cid lid t s pkgs).package_point_contents = s.package_point_contents := by
  intro pkgs
  induction pkgs with
  | nil => intro s; rfl
  | cons q rest ih =>
    intro s
    unfold deliverLoop
    by_cases h1 : q ∈ s.courier_packages cid
    · rw [if_pos h1]
      rcases ctx.packages q with _ | pkg
      · rfl
      · dsimp only
        by_cases h2 : pkg.destination ≠ lid
        · rw [if_pos h2, ih _]; rfl
        · rw [if_neg h2, ih _]
    · rw [if_neg h1, ih _]
      rfl

theorem processPickup_cases (ctx : Ctx) (cid : String) (t : Int) (a : ActionData)
    (s : VState) :
    (∃ msg, processPickup ctx cid t a s = addInvalid s msg) ∨
    (∃ lid cou, a.location = some lid ∧ ctx.couriers cid = some cou ∧
      ¬ (((s.courier_packages cid).length + (a.packages.getD []).length : Int) > cou.capacity) ∧
      processPickup ctx cid t a s = pickupLoop ctx cid lid t s (a.packages.getD [])) := by
  unfold processPickup
  rcases hl : a.location with _ | lid
  · exact Or.inl ⟨_, rfl⟩
  · dsimp only
    rcases getLocationCoordinates ctx lid with _ | lpos
    · exact Or.inl ⟨_, rfl⟩
    · dsimp only
      split_ifs with h1
      · exact Or.inl ⟨_, rfl⟩
      · rcases ctx.locations lid with _ | loc
        · exact Or.inl ⟨_, rfl⟩
        · dsimp only
          split_ifs with h2
          · exact Or.inl ⟨_, rfl⟩
          · rcases hcou : ctx.couriers cid with _ | cou
            · exact Or.inl ⟨_, rfl⟩
            · dsimp only
              split_ifs with h3
              · exact Or.inl ⟨_, rfl⟩
              · exact Or.inr ⟨lid, cou, rfl, rfl, h3, rfl⟩

theorem processDropoff_cases (ctx : Ctx) (cid : String) (a : ActionData)
    (s : VState) :
    (∃ msg, processDropoff ctx cid a s = addInvalid s msg) ∨
    (∃ lid loc cap, a.location = some lid ∧ ctx.locations lid = some loc ∧
      loc.capacity = some cap ∧
      ¬ (((s.package_point_contents lid).length + (a.packages.getD []).length : Int) > cap) ∧
      processDropoff ctx cid a s = dropoffLoop cid lid s (a.packages.getD [])) := by
  unfold processDropoff
  rcases hl : a.location with _ | lid
  · exact Or.inl ⟨_, rfl⟩
  · dsimp only
    rcases getLocationCoordinates ctx lid with _ | lpos
    · exact Or.inl ⟨_, rfl⟩
    · dsimp only
      split_ifs with h1
      · exact Or.inl ⟨_, rfl⟩
      · rcases hloc : ctx.locations lid with _ | loc
        · exact Or.inl ⟨_, rfl⟩
        · dsimp only
          split_ifs with h2
          · exact Or.inl ⟨_, rfl⟩
          · rcases hcap : loc.capacity with _ | cap
            · exact Or.inl ⟨_, rfl⟩
            · dsimp only
              split_ifs with h3
              · exact Or.inl ⟨_, rfl⟩
              · exact Or.inr ⟨lid, loc, cap, rfl, hloc, hcap, h3, rfl⟩

theorem processDeliver_cases (ctx : Ctx) (cid : String) (t : Int) (a : ActionData)
    (s : VState) :
    (∃ msg, processDeliver ctx cid t a s = addInvalid s msg) ∨
    (∃ lid, a.location = some lid ∧
      processDeliver ctx cid t a s = deliverLoop ctx cid lid t s (a.packages.getD [])) := by
  unfold processDeliver
  rcases hl : a.location with _ | lid
  · exact Or.inl ⟨_, rfl⟩
  · dsimp only
    rcases getLocationCoordinates ctx lid with _ | lpos
    · exact Or.inl ⟨_, rfl⟩
    · dsimp only
      split_ifs with h1
      · exact Or.inl ⟨_, rfl⟩
      · rcases ctx.locations lid with _ | loc
        · exact Or.inl ⟨_, rfl⟩
        · dsimp only
          split_ifs with h2
          · exact Or.inl ⟨_, rfl⟩
          · exact Or.inr ⟨lid, rfl, rfl⟩

theorem processMove_cp_ppc (cid : String) (a : ActionData) (s : VState) :
    (processMove cid a s).courier_packages = s.courier_packages ∧
    (processMove cid a s).package_point_contents = s.package_point_contents := by
  unfold processMove
  repeat' split
  all_goals exact ⟨rfl, rfl⟩

theorem processWait_cp_ppc (ctx : Ctx) (a : ActionData) (s : VState) :
    (processWait ctx a s).courier_packages = s.courier_packages ∧
    (processWait ctx a s).package_point_contents = s.package_point_contents := by
  unfold processWait
  repeat' split
  all_goals exact ⟨rfl, rfl⟩

theorem courierCap_of_le (ctx : Ctx) {s s' : VState}
    (h : ∀ c, (s'.courier_packages c).length ≤ (s.courier_packages c).length)
    (h1 : CourierCapInv ctx s) : CourierCapInv ctx s' := by
  intro c cou hc
  have := h1 c cou hc
  have := h c
  omega

theorem pointCap_of_ppc_eq (ctx : Ctx) {s s' : VState}
    (h : s'.package_point_contents = s.package_point_contents)
    (h2 : PointCapInv ctx s) : PointCapInv ctx s' := by
  intro lid loc cap hl hty hcap
  rw [h]
  exact h2 lid loc cap hl hty hcap

theorem courierCap_of_cp_eq (ctx : Ctx) {s s' : VState}
    (h : s'.courier_packages = s.courier_packages)
    (h1 : CourierCapInv ctx s) : CourierCapInv ctx s' := by
  intro c cou hc
  rw [h]
  exact h1 c cou hc

theorem processPickup_capInv (ctx : Ctx) (cid : String) (t : Int) (a : ActionData)
    (s : VState) (h1 : CourierCapInv ctx s) (h2 : PointCapInv ctx s) :
    CourierCapInv ctx (processPickup ctx cid t a s) ∧
    PointCapInv ctx (processPickup ctx cid t a s) := by
  rcases processPickup_cases ctx cid t a s with ⟨msg, hm⟩ | ⟨lid, cou, _, hcou, hg, hres⟩
  · rw [hm]
    exact ⟨h1, h2⟩
  · rw [hres]
    constructor
    · intro c cou' hc
      by_cases hcc : c = cid
      · subst hcc
        rw [hcou] at hc
        injection hc with hc
        subst hc
        have hlen := pickupLoop_cp_len ctx c lid t (a.packages.getD []) s
        push_neg at hg
        omega
      · rw [pickupLoop_cp_other ctx cid lid t c hcc (a.packages.getD []) s]
        exact h1 c cou' hc
    · exact pointCap_of_ppc_eq ctx (pickupLoop_ppc ctx cid lid t (a.packages.getD []) s) h2

theorem processDropoff_capInv (ctx : Ctx) (cid : String) (a : ActionData)
    (s : VState) (h1 : CourierCapInv ctx s) (h2 : PointCapInv ctx s) :
    CourierCapInv ctx (processDropoff ctx cid a s) ∧
    PointCapInv ctx (processDropoff ctx cid a s) := by
  rcases processDropoff_cases ctx cid a s with ⟨msg, hm⟩ | ⟨lid, loc, cap, _, hloc, hcap, hg, hres⟩
  · rw [hm]
    exact ⟨h1, h2⟩
  · rw [hres]
    constructor
    · exact courierCap_of_le ctx (fun c => dropoffLoop_cp_le cid lid c (a.packages.getD []) s) h1
    · intro l loc' cap' hl hty hcap'
      by_cases hll : l = lid
      · subst hll
        rw [hloc] at hl
        injection hl with hl
        subst hl
        rw [hcap] at hcap'
        injection hcap' with hcap'
        subst hcap'
        have hlen := dropoffLoop_ppc_len cid l (a.packages.getD []) s
        push_neg at hg
        omega
      · rw [dropoffLoop_ppc_other cid lid l hll (a.packages.getD []) s]
        exact h2 l loc' cap' hl hty hcap'

theorem processDeliver_capInv (ctx : Ctx) (cid : String) (t : Int) (a : ActionData)
    (s : VState) (h1 : CourierCapInv ctx s) (h2 : PointCapInv ctx s) :
    CourierCapInv ctx (processDeliver ctx cid t a s) ∧
    PointCapInv ctx (processDeliver ctx cid t a s) := by
  rcases processDeliver_cases ctx cid t a s with ⟨msg, hm⟩ | ⟨lid, _, hres⟩
  · rw [hm]
    exact ⟨h1, h2⟩
  · rw [hres]
    exact ⟨courierCap_of_le ctx (fun c => deliverLoop_cp_le ctx cid lid t c (a.packages.getD []) s) h1,
           pointCap_of_ppc_eq ctx (deliverLoop_ppc ctx cid lid t (a.packages.getD []) s) h2⟩

theorem processAction_capInv (ctx : Ctx) (s : VState) (a : ActionData)
    (h1 : CourierCapInv ctx s) (h2 : PointCapInv ctx s) :
    CourierCapInv ctx (processAction ctx s a) ∧
    PointCapInv ctx (processAction ctx s a) := by
  unfold processAction
  rcases a.time with _ | t
  · exact ⟨h1, h2⟩
  · dsimp only
    rcases a.courier with _ | cid
    · exact ⟨h1, h2⟩
    · dsimp only
      rcases a.action with _ | act
      · exact ⟨h1, h2⟩
      · dsimp only
        have h1' : CourierCapInv ctx
            { s with completion_time := if t > s.completion_time then t else s.completion_time } := h1
        have h2' : PointCapInv ctx
            { s with completion_time := if t > s.completion_time then t else s.completion_time } := h2
        generalize hgen : ({ s with completion_time :=
            if t > s.completion_time then t else s.completion_time } : VState) = s1 at h1' h2' ⊢
        split_ifs
        · exact ⟨h1', h2'⟩
        · exact processPickup_capInv ctx cid t a s1 h1' h2'
        · exact processDropoff_capInv ctx cid a s1 h1' h2'
        · exact processDeliver_capInv ctx cid t a s1 h1' h2'
        · exact ⟨courierCap_of_cp_eq ctx (processMove_cp_ppc cid a s1).1 h1',
                 pointCap_of_ppc_eq ctx (processMove_cp_ppc cid a s1).2 h2'⟩
        · exact ⟨courierCap_of_cp_eq ctx (processWait_cp_ppc ctx a s1).1 h1',
                 pointCap_of_ppc_eq ctx (processWait_cp_ppc ctx a s1).2 h2'⟩
        · exact ⟨h1', h2'⟩

theorem foldl_capInv (ctx : Ctx) :
    ∀ (acts : List ActionData) (s : VState),
      CourierCapInv ctx s → PointCapInv ctx s →
      CourierCapInv ctx (acts.foldl (processAction ctx) s) ∧
      PointCapInv ctx (acts.foldl (processAction ctx) s)
  | [], _, h1, h2 => ⟨h1, h2⟩
  | a :: rest, s, h1, h2 =>
    foldl_capInv ctx rest (processAction ctx s a)
      (processAction_capInv ctx s a h1 h2).1
      (processAction_capInv ctx s a h1 h2).2

theorem sweepUndelivered_cp_ppc (o : List String → List String) (inp : InputData)
    (s : VState) :
    (sweepUndelivered o inp s).courier_packages = s.courier_packages ∧
    (sweepUndelivered o inp s).package_point_contents = s.package_point_contents := by
  simp only [sweepUndelivered]
  split
  · exact ⟨rfl, rfl⟩
  · exact ⟨rfl, rfl⟩

/-- C8. For a well-formed problem (courier capacities ≥ 1, package_point
capacities declared and ≥ 1), after processing any list of actions — in
particular after each prefix of the sorted log, valid or invalid actions
alike — every courier carries at most its capacity and every package point
holds at most its capacity; the same holds for the final state delivered by
`validateSolution`. -/
theorem capacity_invariant_holds (o : List String → List String)
    (inp : InputData) (out : List ActionData) (acts : List ActionData)
    (hc : ∀ c ∈ inp.couriers, 1 ≤ c.capacity)
    (hp : ∀ l ∈ inp.locations, l.ltype = "package_point" →
      ∃ cap, l.capacity = some cap ∧ 1 ≤ cap) :
    (CourierCapInv (mkCtx inp)
        (acts.foldl (processAction (mkCtx inp)) (initState inp (mkCtx inp))) ∧
     PointCapInv (mkCtx inp)
        (acts.foldl (processAction (mkCtx inp)) (initState inp (mkCtx inp)))) ∧
    (∀ st, validateSolution o inp out = Except.ok st →
      CourierCapInv (mkCtx inp) st ∧ PointCapInv (mkCtx inp) st) := by
  have hinit1 : CourierCapInv (mkCtx inp) (initState inp (mkCtx inp)) := by
    intro c cou hcou
    have hmem : cou ∈ inp.couriers := dictOfList_mem Courier.id inp.couriers c cou hcou
    have hcap := hc cou hmem
    have hzero : (initState inp (mkCtx inp)).courier_packages c = [] := rfl
    rw [hzero]
    simp only [List.length_nil, Nat.cast_zero]
    omega
  have hinit2 : PointCapInv (mkCtx inp) (initState inp (mkCtx inp)) := by
    intro lid loc cap hl hty hcap
    have hmem : loc ∈ inp.locations := dictOfList_mem Location.id inp.locations lid loc hl
    obtain ⟨cap', hcap', h1c⟩ := hp loc hmem hty
    rw [hcap] at hcap'
    injection hcap' with hcap'
    subst hcap'
    have hzero : (initState inp (mkCtx inp)).package_point_contents lid = [] := rfl
    rw [hzero]
    simp only [List.length_nil, Nat.cast_zero]
    omega
  refine ⟨foldl_capInv (mkCtx inp) acts _ hinit1 hinit2, ?_⟩
  intro st hst
  unfold validateSolution at hst
  rcases hs : sortActions out with e | sortedActs
  · rw [hs] at hst
    cases hst
  · rw [hs] at hst
    dsimp only at hst
    injection hst with hst
    subst hst
    have hfold := foldl_capInv (mkCtx inp) sortedActs _ hinit1 hinit2
    exact ⟨courierCap_of_cp_eq (mkCtx inp)
             (sweepUndelivered_cp_ppc o inp _).1 hfold.1,
           pointCap_of_ppc_eq (mkCtx inp)
             (sweepUndelivered_cp_ppc o inp _).2 hfold.2⟩

/-- C8 witness: the capacity invariants hold along the concrete valid run of
`goodLog` on the one-courier map. -/
theorem capacity_invariant_holds_witness :
    (CourierCapInv (mkCtx inpA)
        (goodLog.foldl (processAction (mkCtx inpA)) (initState inpA (mkCtx inpA))) ∧
     PointCapInv (mkCtx inpA)
        (goodLog.foldl (processAction (mkCtx inpA)) (initState inpA (mkCtx inpA)))) ∧
    (∀ st, validateSolution id inpA goodLog = Except.ok st →
      CourierCapInv (mkCtx inpA) st ∧ PointCapInv (mkCtx inpA) st) :=
  capacity_invariant_holds id inpA goodLog goodLog
    (by intro c hcm; simp [inpA] at hcm; subst hcm; decide)
    (by
      intro l hl hty
      simp [inpA] at hl
      rcases hl with rfl | rfl | rfl
      · exact absurd hty (by decide)
      · exact ⟨1, rfl, by decide⟩
      · exact absurd hty (by decide))

/-! Completion time and penalty bookkeeping for the score claims. -/

theorem penalty_le_addInvalid (s : VState) (m : String) :
    s.invalid_action_penalty ≤ (addInvalid s m).invalid_action_penalty := by
  simp only [addInvalid_invalid_action_penalty]
  omega

theorem pickupOne_completion (ctx : Ctx) (cid lid : String) (t : Int) (s : VState)
    (q : String) : (pickupOne ctx cid lid t s q).completion_time = s.completion_time := by
  unfold pickupOne
  repeat' split
  all_goals rfl

theorem pickupOne_penalty_le (ctx : Ctx) (cid lid : String) (t : Int) (s : VState)
    (q : String) :
    s.invalid_action_penalty ≤ (pickupOne ctx cid lid t s q).invalid_action_penalty := by
  unfold pickupOne
  repeat' split
  all_goals first
    | exact penalty_le_addInvalid _ _
    | exact le_refl _

theorem pickupLoop_completion (ctx : Ctx) (cid lid : String) (t : Int) :
    ∀ (pkgs : List String) (s : VState),
      (pickupLoop ctx cid lid t s pkgs).completion_time = s.completion_time
  | [], _ => rfl
  | q :: rest, s => by
    rw [show pickupLoop ctx cid lid t s (q :: rest) =
          pickupLoop ctx cid lid t (pickupOne ctx cid lid t s q) rest from rfl,
        pickupLoop_completion ctx cid lid t rest (pickupOne ctx cid lid t s q),
        pickupOne_completion]

theorem pickupLoop_penalty_le (ctx : Ctx) (cid lid : String) (t : Int) :
    ∀ (pkgs : List String) (s : VState),
      s.invalid_action_penalty ≤ (pickupLoop ctx cid lid t s pkgs).invalid_action_penalty
  | [], _ => le_refl _
  | q :: rest, s =>
    le_trans (pickupOne_penalty_le ctx cid lid t s q)
      (pickupLoop_penalty_le ctx cid lid t rest (pickupOne ctx cid lid t s q))

theorem dropoffOne_completion (cid lid : String) (s : VState) (q : String) :
    (dropoffOne cid lid s q).completion_time = s.completion_time := by
  unfold dropoffOne
  repeat' split
  all_goals rfl

theorem dropoffOne_penalty_le (cid lid : String) (s : VState) (q : String) :
    s.invalid_action_penalty ≤ (dropoffOne cid lid s q).invalid_action_penalty := by
  unfold dropoffOne
  repeat' split
  all_goals first
    | exact penalty_le_addInvalid _ _
    | exact le_refl _

theorem dropoffLoop_completion (cid lid : String) :
    ∀ (pkgs : List String) (s : VState),
      (dropoffLoop cid lid s pkgs).completion_time = s.completion_time
  | [], _ => rfl
  | q :: rest, s => by
    rw [show dropoffLoop cid lid s (q :: rest) =
          dropoffLoop cid lid (dropoffOne cid lid s q) rest from rfl,
        dropoffLoop_completion cid lid rest (dropoffOne cid lid s q),
        dropoffOne_completion]

theorem dropoffLoop_penalty_le (cid lid : String) :
    ∀ (pkgs : List String) (s : VState),
      s.invalid_action_penalty ≤ (dropoffLoop cid lid s pkgs).invalid_action_penalty
  | [], _ => le_refl _
  | q :: rest, s =>
    le_trans (dropoffOne_penalty_le cid lid s q)
      (dropoffLoop_penalty_le cid lid rest (dropoffOne cid lid s q))

theorem deliverLoop_completion (ctx : Ctx) (cid lid : String) (t : Int) :
    ∀ (pkgs : List String) (s : VState),
      (deliverLoop ctx cid lid t s pkgs).completion_time = s.completion_time := by
  intro pkgs
  induction pkgs with
  | nil => intro s; rfl
  | cons q rest ih =>
    intro s
    unfold deliverLoop
    by_cases h1 : q ∈ s.courier_packages cid
    · rw [if_pos h1]
      rcases ctx.packages q with _ | pkg
      · rfl
      · dsimp only
        by_cases h2 : pkg.destination ≠ lid
        · rw [if_pos h2, ih _]
          rfl
        · rw [if_neg h2, ih _]
    · rw [if_neg h1, ih _]
      rfl

theorem deliverLoop_penalty_le (ctx : Ctx) (cid lid : String) (t : Int) :
    ∀ (pkgs : List String) (s : VState),
      s.invalid_action_penalty ≤ (deliverLoop ctx cid lid t s pkgs).invalid_action_penalty := by
  intro pkgs
  induction pkgs with
  | nil => intro s; exact le_refl _
  | cons q rest ih =>
    intro s
    unfold deliverLoop
    by_cases h1 : q ∈ s.courier_packages cid
    · rw [if_pos h1]
      rcases ctx.packages q with _ | pkg
      · exact penalty_le_addInvalid _ _
      · dsimp only
        by_cases h2 : pkg.destination ≠ lid
        · rw [if_pos h2]
          exact le_trans (penalty_le_addInvalid _ _) (ih _)
        · rw [if_neg h2]
          exact ih _
    · rw [if_neg h1]
      exact le_trans (penalty_le_addInvalid _ _) (ih _)

theorem processPickup_completion (ctx : Ctx) (cid : String) (t : Int)
    (a : ActionData) (s : VState) :
    (processPickup ctx cid t a s).completion_time = s.completion_time := by
  rcases processPickup_cases ctx cid t a s with ⟨msg, hm⟩ | ⟨lid, cou, _, _, _, hres⟩
  · rw [hm]; rfl
  · rw [hres]
    exact pickupLoop_completion ctx cid lid t (a.packages.getD []) s

theorem processPickup_penalty_le (ctx : Ctx) (cid : String) (t : Int)
    (a : ActionData) (s : VState) :
    s.invalid_action_penalty ≤ (processPickup ctx cid t a s).invalid_action_penalty := by
  rcases processPickup_cases ctx cid t a s with ⟨msg, hm⟩ | ⟨lid, cou, _, _, _, hres⟩
  · rw [hm]; exact penalty_le_addInvalid _ _
  · rw [hres]
    exact pickupLoop_penalty_le ctx cid lid t (a.packages.getD []) s

theorem processDropoff_completion (ctx : Ctx) (cid : String) (a : ActionData)
    (s : VState) :
    (processDropoff ctx cid a s).completion_time = s.completion_time := by
  rcases processDropoff_cases ctx cid a s with ⟨msg, hm⟩ | ⟨lid, loc, cap, _, _, _, _, hres⟩
  · rw [hm]; rfl
  · rw [hres]
    exact dropoffLoop_completion cid lid (a.packages.getD []) s

theorem processDropoff_penalty_le (ctx : Ctx) (cid : String) (a : ActionData)
    (s : VState) :
    s.invalid_action_penalty ≤ (processDropoff ctx cid a s).invalid_action_penalty := by
  rcases processDropoff_cases ctx cid a s with ⟨msg, hm⟩ | ⟨lid, loc, cap, _, _, _, _, hres⟩
  · rw [hm]; exact penalty_le_addInvalid _ _
  · rw [hres]
    exact dropoffLoop_penalty_le cid lid (a.packages.getD []) s

theorem processDeliver_completion (ctx : Ctx) (cid : String) (t : Int)
    (a : ActionData) (s : VState) :
    (processDeliver ctx cid t a s).completion_time = s.completion_time := by
  rcases processDeliver_cases ctx cid t a s with ⟨msg, hm⟩ | ⟨lid, _, hres⟩
  · rw [hm]; rfl
  · rw [hres]
    exact deliverLoop_completion ctx cid lid t (a.packages.getD []) s

theorem processDeliver_penalty_le (ctx : Ctx) (cid : String) (t : Int)
    (a : ActionData) (s : VState) :
    s.invalid_action_penalty ≤ (processDeliver ctx cid t a s).invalid_action_penalty := by
  rcases processDeliver_cases ctx cid t a s with ⟨msg, hm⟩ | ⟨lid, _, hres⟩
  · rw [hm]; exact penalty_le_addInvalid _ _
  · rw [hres]
    exact deliverLoop_penalty_le ctx cid lid t (a.packages.getD []) s

theorem processMove_completion (cid : String) (a : ActionData) (s : VState) :
    (processMove cid a s).completion_time = s.completion_time := by
  unfold processMove
  repeat' split
  all_goals rfl

theorem processMove_penalty_le (cid : String) (a : ActionData) (s : VState) :
    s.invalid_action_penalty ≤ (processMove cid a s).invalid_action_penalty := by
  unfold processMove
  repeat' split
  all_goals first
    | exact penalty_le_addInvalid _ _
    | exact le_refl _

theorem processWait_completion (ctx : Ctx) (a : ActionData) (s : VState) :
    (processWait ctx a s).completion_time = s.completion_time := by
  unfold processWait
  repeat' split
  all_goals rfl

theorem processWait_penalty_le (ctx : Ctx) (a : ActionData) (s : VState) :
    s.invalid_action_penalty ≤ (processWait ctx a s).invalid_action_penalty := by
  unfold processWait
  repeat' split
  all_goals first
    | exact penalty_le_addInvalid _ _
    | exact le_refl _

theorem processAction_penalty_le (ctx : Ctx) (s : VState) (a : ActionData) :
    s.invalid_action_penalty ≤ (processAction ctx s a).invalid_action_penalty := by
  unfold processAction
  rcases a.time with _ | t
  · exact penalty_le_addInvalid _ _
  · dsimp only
    rcases a.courier with _ | cid
    · exact penalty_le_addInvalid _ _
    · dsimp only
      rcases a.action with _ | act
      · exact penalty_le_addInvalid _ _
      · dsimp only
        have hpen : ({ s with completion_time :=
            if t > s.completion_time then t else s.completion_time } : VState).invalid_action_penalty
              = s.invalid_action_penalty := rfl
        generalize hgen : ({ s with completion_time :=
            if t > s.completion_time then t else s.completion_time } : VState) = s1 at hpen ⊢
        rw [← hpen]
        split_ifs
        · exact penalty_le_addInvalid _ _
        · exact processPickup_penalty_le ctx cid t a s1
        · exact processDropoff_penalty_le ctx cid a s1
        · exact processDeliver_penalty_le ctx cid t a s1
        · exact processMove_penalty_le cid a s1
        · exact processWait_penalty_le ctx a s1
        · exact penalty_le_addInvalid _ _

theorem processAction_penalty_eq_hdr (ctx : Ctx) (s : VState) (a : ActionData)
    (h : (processAction ctx s a).invalid_action_penalty = s.invalid_action_penalty) :
    a.time.isSome = true ∧ a.courier.isSome = true ∧ a.action.isSome = true := by
  unfold processAction at h
  rcases ht : a.time with _ | t
  · rw [ht] at h
    simp only [addInvalid_invalid_action_penalty] at h
    omega
  · rw [ht] at h
    dsimp only at h
    rcases hc : a.courier with _ | cid
    · rw [hc] at h
      simp only [addInvalid_invalid_action_penalty] at h
      omega
    · rw [hc] at h
      dsimp only at h
      rcases ha : a.action with _ | act
      · rw [ha] at h
        simp only [addInvalid_invalid_action_penalty] at h
        omega
      · exact ⟨rfl, rfl, rfl⟩

theorem processAction_completion_some (ctx : Ctx) (s : VState) (a : ActionData)
    (t : Int) (h1 : a.time = some t) (h2 : a.courier.isSome = true)
    (h3 : a.action.isSome = true) :
    (processAction ctx s a).completion_time = max s.completion_time t := by
  unfold processAction
  rw [h1]
  dsimp only
  rcases hc : a.courier with _ | cid
  · rw [hc] at h2; simp at h2
  · dsimp only
    rcases ha : a.action with _ | act
    · rw [ha] at h3; simp at h3
    · dsimp only
      have hct : ({ s with completion_time :=
          if t > s.completion_time then t else s.completion_time } : VState).completion_time
            = max s.completion_time t := by
        dsimp only
        rcases le_or_lt t s.completion_time with h | h
        · rw [if_neg (by omega), max_eq_left h]
        · rw [if_pos (by omega), max_eq_right h.le]
      generalize hgen : ({ s with completion_time :=
          if t > s.completion_time then t else s.completion_time } : VState) = s1 at hct ⊢
      rw [← hct]
      split_ifs
      · rfl
      · exact processPickup_completion ctx cid t a s1
      · exact processDropoff_completion ctx cid a s1
      · exact processDeliver_completion ctx cid t a s1
      · exact processMove_completion cid a s1
      · exact processWait_completion ctx a s1
      · rfl

theorem foldl_penalty_le (ctx : Ctx) :
    ∀ (acts : List ActionData) (s : VState),
      s.invalid_action_penalty ≤ (acts.foldl (processAction ctx) s).invalid_action_penalty
  | [], _ => le_refl _
  | a :: rest, s =>
    le_trans (processAction_penalty_le ctx s a)
      (foldl_penalty_le ctx rest (processAction ctx s a))

theorem foldl_penalty_hdr (ctx : Ctx) :
    ∀ (acts : List ActionData) (s : VState),
      (acts.foldl (processAction ctx) s).invalid_action_penalty = s.invalid_action_penalty →
      ∀ a ∈ acts, a.time.isSome = true ∧ a.courier.isSome = true ∧ a.action.isSome = true := by
  intro acts
  induction acts with
  | nil => intro s _ a ha; cases ha
  | cons b rest ih =>
    intro s h a ha
    have h1 := processAction_penalty_le ctx s b
    have h2 := foldl_penalty_le ctx rest (processAction ctx s b)
    rw [show (b :: rest).foldl (processAction ctx) s =
          rest.foldl (processAction ctx) (processAction ctx s b) from rfl] at h
    have hb : (processAction ctx s b).invalid_action_penalty = s.invalid_action_penalty := by
      omega
    rcases List.mem_cons.mp ha with rfl | ha'
    · exact processAction_penalty_eq_hdr ctx s a hb
    · exact ih (processAction ctx s b) (by omega) a ha'

theorem foldl_completion_eq (ctx : Ctx) :
    ∀ (acts : List ActionData) (s : VState),
      (∀ a ∈ acts, a.time.isSome = true ∧ a.courier.isSome = true ∧ a.action.isSome = true) →
      (acts.foldl (processAction ctx) s).completion_time =
        acts.foldl (fun m a => max m (a.time.getD 0)) s.completion_time := by
  intro acts
  induction acts with
  | nil => intro s _; rfl
  | cons b rest ih =>
    intro s hall
    obtain ⟨hbt, hbc, hba⟩ := hall b (List.mem_cons_self b rest)
    rcases hbs : b.time with _ | t
    · rw [hbs] at hbt; simp at hbt
    · rw [show (b :: rest).foldl (processAction ctx) s =
            rest.foldl (processAction ctx) (processAction ctx s b) from rfl,
          ih (processAction ctx s b) (fun a ha => hall a (List.mem_cons_of_mem b ha)),
          processAction_completion_some ctx s b t hbs hbc hba,
          show (b :: rest).foldl (fun m a => max m (a.time.getD 0)) s.completion_time =
            rest.foldl (fun m a => max m (a.time.getD 0))
              (max s.completion_time (b.time.getD 0)) from rfl,
          hbs]
      rfl

theorem insertByTime_perm (a : ActionData) :
    ∀ l : List ActionData, (insertByTime a l).Perm (a :: l)
  | [] => List.Perm.refl _
  | b :: rest => by
    unfold insertByTime
    split_ifs with h
    · exact List.Perm.refl _
    · exact ((insertByTime_perm a rest).cons b).trans (List.Perm.swap a b rest)

theorem sortByTime_perm : ∀ l : List ActionData, (sortByTime l).Perm l
  | [] => List.Perm.refl _
  | a :: rest => (insertByTime_perm a (sortByTime rest)).trans ((sortByTime_perm rest).cons a)

theorem perm_foldl_max (f : ActionData → Int) {l1 l2 : List ActionData}
    (p : l1.Perm l2) : ∀ c : Int,
    l1.foldl (fun m a => max m (f a)) c = l2.foldl (fun m a => max m (f a)) c := by
  induction p with
  | nil => intro c; rfl
  | cons x _ ih => intro c; exact ih _
  | swap x y l => intro c; dsimp only [List.foldl]; rw [sup_right_comm]
  | trans _ _ ih1 ih2 => intro c; exact (ih1 c).trans (ih2 c)

theorem foldl_max_init_le (f : ActionData → Int) :
    ∀ (l : List ActionData) (c : Int), c ≤ l.foldl (fun m a => max m (f a)) c
  | [], _ => le_refl _
  | b :: rest, c =>
    le_trans (le_max_left c (f b)) (foldl_max_init_le f rest (max c (f b)))

theorem foldl_max_ub (f : ActionData → Int) :
    ∀ (l : List ActionData) (c : Int), ∀ x ∈ l,
      f x ≤ l.foldl (fun m a => max m (f a)) c
  | [], _, x, hx => absurd hx (List.not_mem_nil x)
  | b :: rest, c, x, hx => by
    rcases List.mem_cons.mp hx with rfl | hx'
    · dsimp only [List.foldl]
      exact le_trans (le_max_right c (f x)) (foldl_max_init_le f rest (max c (f x)))
    · exact foldl_max_ub f rest (max c (f b)) x hx'

theorem foldl_max_cases (f : ActionData → Int) :
    ∀ (l : List ActionData) (c : Int),
      l.foldl (fun m a => max m (f a)) c = c ∨
      ∃ x ∈ l, l.foldl (fun m a => max m (f a)) c = f x
  | [], _ => Or.inl rfl
  | b :: rest, c => by
    rcases foldl_max_cases f rest (max c (f b)) with h | ⟨x, hx, hfx⟩
    · rcases max_choice c (f b) with hm | hm
      · exact Or.inl (by dsimp only [List.foldl]; rw [h, hm])
      · exact Or.inr ⟨b, List.mem_cons_self b rest, by dsimp only [List.foldl]; rw [h, hm]⟩
    · exact Or.inr ⟨x, List.mem_cons_of_mem b hx, hfx⟩

theorem sweepUndelivered_completion (o : List String → List String)
    (inp : InputData) (s : VState) :
    (sweepUndelivered o inp s).completion_time = s.completion_time := by
  simp only [sweepUndelivered]
  split <;> rfl

theorem sweepUndelivered_invalid (o : List String → List String)
    (inp : InputData) (s : VState) :
    (sweepUndelivered o inp s).invalid_action_penalty = s.invalid_action_penalty := by
  simp only [sweepUndelivered]
  split <;> rfl

theorem sweepUndelivered_delivered (o : List String → List String)
    (inp : InputData) (s : VState) :
    (sweepUndelivered o inp s).delivered_packages = s.delivered_packages := by
  simp only [sweepUndelivered]
  split <;> rfl

theorem sweepUndelivered_und (o : List String → List String)
    (inp : InputData) (s : VState) :
    (sweepUndelivered o inp s).undelivered_penalty =
      100 * ((undeliveredList inp s).length : Int) := by
  simp only [sweepUndelivered]
  split <;> rfl

theorem sweepUndelivered_errors (o : List String → List String)
    (inp : InputData) (s : VState) :
    (sweepUndelivered o inp s).errors =
      (if (undeliveredList inp s).isEmpty then s.errors
       else s.errors ++ [undeliveredMsg (o (undeliveredList inp s))]) := by
  simp only [sweepUndelivered]
  split_ifs
  all_goals rfl

theorem validateSolution_ok_shape (o : List String → List String)
    (inp : InputData) (out : List ActionData) (st : VState)
    (hst : validateSolution o inp out = Except.ok st) :
    (∀ a ∈ out, a.time.isSome = true) ∧
    st = sweepUndelivered o inp
      ((sortByTime out).foldl (processAction (mkCtx inp)) (initState inp (mkCtx inp))) := by
  unfold validateSolution sortActions at hst
  split_ifs at hst with hall
  dsimp only at hst
  injection hst with h
  exact ⟨List.all_eq_true.mp hall, h.symm⟩

theorem validateAndScore_ok_shape (o : List String → List String)
    (inp : InputData) (out : List ActionData) (r : Report)
    (hr : validateAndScore o inp out = Except.ok r) :
    (∀ a ∈ out, a.time.isSome = true) ∧
    r = calculateScore
      (sweepUndelivered o inp
        ((sortByTime out).foldl (processAction (mkCtx inp)) (initState inp (mkCtx inp))))
      (pkgKeys inp).length := by
  unfold validateAndScore at hr
  rcases hv : validateSolution o inp out with e | st
  · rw [hv] at hr
    cases hr
  · rw [hv] at hr
    dsimp only at hr
    injection hr with h
    obtain ⟨hall, hshape⟩ := validateSolution_ok_shape o inp out st hv
    exact ⟨hall, by rw [← h, hshape]⟩

/-- C5. Every produced report's score is the sum of its three components,
and for a run that incurs no penalties (all times present and ≥ 0, non-empty
log) the score equals the completion time, which is attained by some action
of the log and bounds every action's time — i.e. it is `max(time)` over the
whole log, valid or not. -/
theorem score_decomposition_completion_max (o : List String → List String)
    (inp : InputData) (out : List ActionData) (r : Report)
    (hr : validateAndScore o inp out = Except.ok r) :
    r.score = r.completion_time + r.undelivered_penalty + r.invalid_action_penalty ∧
    (r.invalid_action_penalty = 0 → r.undelivered_penalty = 0 → out ≠ [] →
      (∀ a ∈ out, ∃ t, a.time = some t ∧ 0 ≤ t) →
      r.score = r.completion_time ∧
      (∃ a ∈ out, a.time = some r.completion_time) ∧
      (∀ a ∈ out, ∀ t, a.time = some t → t ≤ r.completion_time)) := by
  obtain ⟨hall, hreq⟩ := validateAndScore_ok_shape o inp out r hr
  generalize hbase : (sortByTime out).foldl (processAction (mkCtx inp))
    (initState inp (mkCtx inp)) = base at hreq
  have hsc : r.score = r.completion_time + r.undelivered_penalty + r.invalid_action_penalty := by
    rw [hreq]
    rfl
  refine ⟨hsc, ?_⟩
  intro hinv hund hne htimes
  have hrinv : r.invalid_action_penalty = (sweepUndelivered o inp base).invalid_action_penalty := by
    rw [hreq]
    rfl
  have hsinv := sweepUndelivered_invalid o inp base
  have hbinv : base.invalid_action_penalty = 0 := by omega
  have hhdr : ∀ a ∈ sortByTime out,
      a.time.isSome = true ∧ a.courier.isSome = true ∧ a.action.isSome = true := by
    refine foldl_penalty_hdr (mkCtx inp) (sortByTime out) (initState inp (mkCtx inp)) ?_
    rw [hbase, hbinv]
    rfl
  have hcomp : base.completion_time = out.foldl (fun m a => max m (a.time.getD 0)) 0 := by
    rw [← hbase, foldl_completion_eq (mkCtx inp) (sortByTime out) _ hhdr]
    have h0 : (initState inp (mkCtx inp)).completion_time = 0 := rfl
    rw [h0, perm_foldl_max (fun a => a.time.getD 0) (sortByTime_perm out) 0]
  have hrct : r.completion_time = base.completion_time := by
    rw [hreq]
    show (sweepUndelivered o inp base).completion_time = base.completion_time
    exact sweepUndelivered_completion o inp base
  refine ⟨by omega, ?_, ?_⟩
  · rcases foldl_max_cases (fun a => a.time.getD 0) out 0 with hz | ⟨x, hx, hfx⟩
    · rcases out with _ | ⟨hd, tl⟩
      · exact absurd rfl hne
      · obtain ⟨t0, ht0, ht0n⟩ := htimes hd (List.mem_cons_self hd tl)
        have hub2 : hd.time.getD 0 ≤
            (hd :: tl).foldl (fun m a => max m (a.time.getD 0)) 0 :=
          foldl_max_ub (fun a => a.time.getD 0) (hd :: tl) 0 hd
            (List.mem_cons_self hd tl)
        have hz2 : (hd :: tl).foldl (fun m a => max m (a.time.getD 0)) 0 = 0 := hz
        have hfhd : hd.time.getD 0 = t0 := by rw [ht0]; rfl
        refine ⟨hd, List.mem_cons_self hd tl, ?_⟩
        rw [ht0]
        have : t0 = r.completion_time := by omega
        rw [this]
    · obtain ⟨tx, htx, _⟩ := htimes x hx
      have hfx2 : out.foldl (fun m a => max m (a.time.getD 0)) 0 = x.time.getD 0 := hfx
      have hfxt : x.time.getD 0 = tx := by rw [htx]; rfl
      refine ⟨x, hx, ?_⟩
      rw [htx]
      have : tx = r.completion_time := by omega
      rw [this]
  · intro a ha t hat
    have hub2 : a.time.getD 0 ≤ out.foldl (fun m a => max m (a.time.getD 0)) 0 :=
      foldl_max_ub (fun a => a.time.getD 0) out 0 a ha
    have hft : a.time.getD 0 = t := by rw [hat]; rfl
    omega

/-- C5 witness: the fully valid run scores 3, equal to its completion time,
attained at the final deliver action. -/
theorem score_decomposition_completion_max_witness :
    validateAndScore id inpA goodLog = Except.ok reportGood ∧
    reportGood.score = reportGood.completion_time ∧
    reportGood.completion_time = 3 :=
  ⟨rfl,
   ((score_decomposition_completion_max id inpA goodLog reportGood rfl).2
      rfl rfl (by decide)
      (by intro a ha; fin_cases ha <;> exact ⟨_, rfl, by decide⟩)).1,
   rfl⟩

/-! Delivered-set bookkeeping for the undelivered-penalty claim. -/

theorem pickupOne_delivered (ctx : Ctx) (cid lid : String) (t : Int) (s : VState)
    (q : String) : (pickupOne ctx cid lid t s q).delivered_packages = s.delivered_packages := by
  unfold pickupOne
  repeat' split
  all_goals rfl

theorem pickupLoop_delivered (ctx : Ctx) (cid lid : String) (t : Int) :
    ∀ (pkgs : List String) (s : VState),
      (pickupLoop ctx cid lid t s pkgs).delivered_packages = s.delivered_packages
  | [], _ => rfl
  | q :: rest, s => by
    rw [show pickupLoop ctx cid lid t s (q :: rest) =
          pickupLoop ctx cid lid t (pickupOne ctx cid lid t s q) rest from rfl,
        pickupLoop_delivered ctx cid lid t rest (pickupOne ctx cid lid t s q),
        pickupOne_delivered]

theorem dropoffOne_delivered (cid lid : String) (s : VState) (q : String) :
    (dropoffOne cid lid s q).delivered_packages = s.delivered_packages := by
  unfold dropoffOne
  repeat' split
  all_goals rfl

theorem dropoffLoop_delivered (cid lid : String) :
    ∀ (pkgs : List String) (s : VState),
      (dropoffLoop cid lid s pkgs).delivered_packages = s.delivered_packages
  | [], _ => rfl
  | q :: rest, s => by
    rw [show dropoffLoop cid lid s (q :: rest) =
          dropoffLoop cid lid (dropoffOne cid lid s q) rest from rfl,
        dropoffLoop_delivered cid lid rest (dropoffOne cid lid s q),
        dropoffOne_delivered]

theorem deliverLoop_deliveredInv (ctx : Ctx) (cid lid : String) (t : Int) :
    ∀ (pkgs : List String) (s : VState), DeliveredInv ctx s →
      DeliveredInv ctx (deliverLoop ctx cid lid t s pkgs) := by
  intro pkgs
  induction pkgs with
  | nil => intro s h; exact h
  | cons q rest ih =>
    intro s h
    unfold deliverLoop
    by_cases h1 : q ∈ s.courier_packages cid
    · rw [if_pos h1]
      rcases hq : ctx.packages q with _ | pkg
      · exact h
      · dsimp only
        by_cases h2 : pkg.destination ≠ lid
        · rw [if_pos h2]
          exact ih _ h
        · rw [if_neg h2]
          refine ih _ ?_
          obtain ⟨hnd, hmem⟩ := h
          by_cases hdq : q ∈ s.delivered_packages
          · exact ⟨by simpa [hdq] using hnd, by intro p hp; simp [hdq] at hp; exact hmem p hp⟩
          · refine ⟨?_, ?_⟩
            · rw [if_neg hdq, ← List.concat_eq_append]
              exact hnd.concat hdq
            · intro p hp
              rw [if_neg hdq, List.mem_append] at hp
              rcases hp with hp | hp
              · exact hmem p hp
              · rw [List.mem_singleton] at hp
                subst hp
                rw [hq]
                rfl
    · rw [if_neg h1]
      exact ih _ h

theorem processMove_delivered (cid : String) (a : ActionData) (s : VState) :
    (processMove cid a s).delivered_packages = s.delivered_packages := by
  unfold processMove
  repeat' split
  all_goals rfl

theorem processWait_delivered (ctx : Ctx) (a : ActionData) (s : VState) :
    (processWait ctx a s).delivered_packages = s.delivered_packages := by
  unfold processWait
  repeat' split
  all_goals rfl

theorem processAction_deliveredInv (ctx : Ctx) (s : VState) (a : ActionData)
    (h : DeliveredInv ctx s) : DeliveredInv ctx (processAction ctx s a) := by
  unfold processAction
  rcases a.time with _ | t
  · exact h
  · dsimp only
    rcases a.courier with _ | cid
    · exact h
    · dsimp only
      rcases a.action with _ | act
      · exact h
      · dsimp only
        have h' : DeliveredInv ctx ({ s with completion_time :=
            if t > s.completion_time then t else s.completion_time } : VState) := h
        generalize hgen : ({ s with completion_time :=
            if t > s.completion_time then t else s.completion_time } : VState) = s1 at h' ⊢
        split_ifs
        · exact h'
        · rcases processPickup_cases ctx cid t a s1 with ⟨msg, hm⟩ | ⟨lid, cou, _, _, _, hres⟩
          · rw [hm]; exact h'
          · rw [hres]
            obtain ⟨hnd, hmem⟩ := h'
            exact ⟨by rw [pickupLoop_delivered]; exact hnd,
                   by rw [pickupLoop_delivered]; exact hmem⟩
        · rcases processDropoff_cases ctx cid a s1 with ⟨msg, hm⟩ | ⟨lid, loc, cap, _, _, _, _, hres⟩
          · rw [hm]; exact h'
          · rw [hres]
            obtain ⟨hnd, hmem⟩ := h'
            exact ⟨by rw [dropoffLoop_delivered]; exact hnd,
                   by rw [dropoffLoop_delivered]; exact hmem⟩
        · rcases processDeliver_cases ctx cid t a s1 with ⟨msg, hm⟩ | ⟨lid, _, hres⟩
          · rw [hm]; exact h'
          · rw [hres]
            exact deliverLoop_deliveredInv ctx cid lid t (a.packages.getD []) s1 h'
        · obtain ⟨hnd, hmem⟩ := h'
          exact ⟨by rw [processMove_delivered]; exact hnd,
                 by rw [processMove_delivered]; exact hmem⟩
        · obtain ⟨hnd, hmem⟩ := h'
          exact ⟨by rw [processWait_delivered]; exact hnd,
                 by rw [processWait_delivered]; exact hmem⟩
        · exact h'

theorem foldl_deliveredInv (ctx : Ctx) :
    ∀ (acts : List ActionData) (s : VState), DeliveredInv ctx s →
      DeliveredInv ctx (acts.foldl (processAction ctx) s)
  | [], _, h => h
  | a :: rest, s, h =>
    foldl_deliveredInv ctx rest (processAction ctx s a)
      (processAction_deliveredInv ctx s a h)

theorem foldl_dict_isSome {α : Type} (key : α → String) :
    ∀ (l : List α) (m : String → Option α) (pid : String),
      ((l.foldl (fun m x => strUpdate m (key x) (some x)) m) pid).isSome = true ↔
      (m pid).isSome = true ∨ pid ∈ l.map key
  | [], m, pid => by simp
  | x :: rest, m, pid => by
    rw [show (x :: rest).foldl (fun m x => strUpdate m (key x) (some x)) m =
          rest.foldl (fun m x => strUpdate m (key x) (some x))
            (strUpdate m (key x) (some x)) from rfl,
        foldl_dict_isSome key rest (strUpdate m (key x) (some x)) pid]
    by_cases hx : pid = key x
    · subst hx
      simp [strUpdate]
    · rw [strUpdate_other _ _ _ _ hx]
      simp only [List.map_cons, List.mem_cons]
      constructor
      · rintro (h | h)
        · exact Or.inl h
        · exact Or.inr (Or.inr h)
      · rintro (h | h | h)
        · exact Or.inl h
        · exact absurd h hx
        · exact Or.inr h

theorem pkgKeys_mem_aux :
    ∀ (l : List Package) (acc : List String) (pid : String),
      pid ∈ l.foldl (fun acc p => if p.id ∈ acc then acc else acc ++ [p.id]) acc ↔
      pid ∈ acc ∨ pid ∈ l.map Package.id
  | [], acc, pid => by simp
  | p :: rest, acc, pid => by
    rw [show (p :: rest).foldl (fun acc p => if p.id ∈ acc then acc else acc ++ [p.id]) acc =
          rest.foldl (fun acc p => if p.id ∈ acc then acc else acc ++ [p.id])
            (if p.id ∈ acc then acc else acc ++ [p.id]) from rfl,
        pkgKeys_mem_aux rest _ pid]
    by_cases hp : p.id ∈ acc
    · rw [if_pos hp]
      simp only [List.map_cons, List.mem_cons]
      constructor
      · rintro (h | h)
        · exact Or.inl h
        · exact Or.inr (Or.inr h)
      · rintro (h | h | h)
        · exact Or.inl h
        · exact Or.inl (h ▸ hp)
        · exact Or.inr h
    · rw [if_neg hp]
      simp only [List.mem_append, List.mem_cons, List.not_mem_nil, or_false,
        List.map_cons]
      tauto

theorem pkgKeys_nodup_aux :
    ∀ (l : List Package) (acc : List String), acc.Nodup →
      (l.foldl (fun acc p => if p.id ∈ acc then acc else acc ++ [p.id]) acc).Nodup
  | [], _, h => h
  | p :: rest, acc, h => by
    rw [show (p :: rest).foldl (fun acc p => if p.id ∈ acc then acc else acc ++ [p.id]) acc =
          rest.foldl (fun acc p => if p.id ∈ acc then acc else acc ++ [p.id])
            (if p.id ∈ acc then acc else acc ++ [p.id]) from rfl]
    by_cases hp : p.id ∈ acc
    · rw [if_pos hp]
      exact pkgKeys_nodup_aux rest acc h
    · rw [if_neg hp]
      refine pkgKeys_nodup_aux rest _ ?_
      rw [← List.concat_eq_append]
      exact h.concat hp

theorem pkgKeys_nodup (inp : InputData) : (pkgKeys inp).Nodup :=
  pkgKeys_nodup_aux inp.packages [] List.nodup_nil

theorem mkCtx_packages_isSome (inp : InputData) (pid : String) :
    (((mkCtx inp).packages) pid).isSome = true ↔ pid ∈ pkgKeys inp := by
  have h1 := foldl_dict_isSome Package.id inp.packages (fun _ => none) pid
  have h2 := pkgKeys_mem_aux inp.packages [] pid
  show ((dictOfList Package.id inp.packages) pid).isSome = true ↔ pid ∈ pkgKeys inp
  unfold dictOfList pkgKeys
  rw [h1, h2]
  simp

theorem filter_not_mem_length (keys d : List String) (hk : keys.Nodup)
    (hd : d.Nodup) (hsub : ∀ x ∈ d, x ∈ keys) :
    d.length ≤ keys.length ∧
    ((keys.filter (fun pid => decide (pid ∉ d))).length : Int) =
      (keys.length : Int) - (d.length : Int) := by
  have hsubf : d.toFinset ⊆ keys.toFinset := by
    intro x hx
    rw [List.mem_toFinset] at hx ⊢
    exact hsub x hx
  have hcards : d.toFinset.card = d.length := List.toFinset_card_of_nodup hd
  have hcardk : keys.toFinset.card = keys.length := List.toFinset_card_of_nodup hk
  have hlen : d.length ≤ keys.length := by
    have := Finset.card_le_card hsubf
    omega
  refine ⟨hlen, ?_⟩
  have hnodupf : (keys.filter (fun pid => decide (pid ∉ d))).Nodup := hk.filter _
  have h1 : (keys.filter (fun pid => decide (pid ∉ d))).toFinset.card =
      (keys.filter (fun pid => decide (pid ∉ d))).length :=
    List.toFinset_card_of_nodup hnodupf
  have h2 : (keys.filter (fun pid => decide (pid ∉ d))).toFinset =
      keys.toFinset \ d.toFinset := by
    rw [List.toFinset_filter]
    ext x
    simp [Finset.mem_sdiff, List.mem_toFinset, Finset.mem_filter]
  have h3 := Finset.card_sdiff hsubf
  have h4 : (keys.filter (fun pid => decide (pid ∉ d))).length =
      keys.length - d.length := by
    rw [← h1, h2, h3, hcardk, hcards]
  omega

/-- C6. Amended accounting of undelivered packages: the penalty always
equals 100 × (total − delivered), a non-negative multiple of 100, and no
per-package error entries or 10-unit penalties arise in the final sweep;
but when any package is undelivered, the single summary message naming them
IS appended to the error list (so it is an entry of the report's `errors`
and makes `is_valid` false), contrary to the claim's "does not add an entry
to the error list". -/
theorem undelivered_penalty_accounting (o : List String → List String)
    (inp : InputData) (out : List ActionData) (r : Report)
    (hr : validateAndScore o inp out = Except.ok r) :
    r.undelivered_penalty =
      100 * ((r.total_packages : Int) - (r.delivered_packages : Int)) ∧
    0 ≤ r.undelivered_penalty ∧
    (100 : Int) ∣ r.undelivered_penalty ∧
    r.delivered_packages ≤ r.total_packages ∧
    r.invalid_action_penalty = (runFold inp out).invalid_action_penalty ∧
    (undeliveredList inp (runFold inp out) = [] →
      r.errors = (runFold inp out).errors) ∧
    (undeliveredList inp (runFold inp out) ≠ [] →
      r.errors = (runFold inp out).errors ++
        [undeliveredMsg (o (undeliveredList inp (runFold inp out)))]) := by
  obtain ⟨hall, hreq⟩ := validateAndScore_ok_shape o inp out r hr
  rw [show (sortByTime out).foldl (processAction (mkCtx inp)) (initState inp (mkCtx inp)) =
        runFold inp out from rfl] at hreq
  have hinv : DeliveredInv (mkCtx inp) (runFold inp out) := by
    refine foldl_deliveredInv (mkCtx inp) (sortByTime out) (initState inp (mkCtx inp)) ?_
    exact ⟨List.nodup_nil, by intro pid hp; cases hp⟩
  obtain ⟨hnd, hmem⟩ := hinv
  have hsub : ∀ x ∈ (runFold inp out).delivered_packages, x ∈ pkgKeys inp := by
    intro x hx
    exact (mkCtx_packages_isSome inp x).mp (hmem x hx)
  obtain ⟨hlen, hcount⟩ := filter_not_mem_length (pkgKeys inp)
    (runFold inp out).delivered_packages (pkgKeys_nodup inp) hnd hsub
  have hdel : r.delivered_packages = (runFold inp out).delivered_packages.length := by
    rw [hreq]
    show (sweepUndelivered o inp (runFold inp out)).delivered_packages.length = _
    rw [sweepUndelivered_delivered]
  have htot : r.total_packages = (pkgKeys inp).length := by
    rw [hreq]
    rfl
  have hund : r.undelivered_penalty =
      100 * ((undeliveredList inp (runFold inp out)).length : Int) := by
    rw [hreq]
    show (sweepUndelivered o inp (runFold inp out)).undelivered_penalty = _
    rw [sweepUndelivered_und]
  have hcount' : ((undeliveredList inp (runFold inp out)).length : Int) =
      ((pkgKeys inp).length : Int) - ((runFold inp out).delivered_packages.length : Int) := by
    show ((List.filter (fun pid => decide (pid ∉ (runFold inp out).delivered_packages))
      (pkgKeys inp)).length : Int) = _
    exact hcount
  refine ⟨by rw [hund, hcount', hdel, htot], ?_, ?_, ?_, ?_, ?_, ?_⟩
  · rw [hund, hcount']
    have : ((runFold inp out).delivered_packages.length : Int) ≤ ((pkgKeys inp).length : Int) := by
      exact_mod_cast hlen
    omega
  · rw [hund]
    exact dvd_mul_right 100 _
  · rw [hdel, htot]
    exact hlen
  · rw [hreq]
    show (sweepUndelivered o inp (runFold inp out)).invalid_action_penalty = _
    rw [sweepUndelivered_invalid]
  · intro hempty
    rw [hreq]
    show (sweepUndelivered o inp (runFold inp out)).errors = _
    rw [sweepUndelivered_errors, if_pos (by rw [hempty]; rfl)]
  · intro hne
    rw [hreq]
    show (sweepUndelivered o inp (runFold inp out)).errors = _
    rw [sweepUndelivered_errors, if_neg (by
      intro hcontra
      exact hne (List.isEmpty_iff.mp hcontra))]

/-- C6 witness: on the two-package problem with an empty log, the penalty is
exactly 100 × (2 − 0) = 200. -/
theorem undelivered_penalty_accounting_witness :
    reportB.undelivered_penalty =
      100 * ((reportB.total_packages : Int) - (reportB.delivered_packages : Int)) ∧
    (100 : Int) ∣ reportB.undelivered_penalty :=
  ⟨(undelivered_penalty_accounting id inpB [] reportB rfl).1,
   (undelivered_penalty_accounting id inpB [] reportB rfl).2.2.1⟩

/-- C6 counterexample: with one undelivered package the summary message is
an entry of the report's error list (its only entry here), and `is_valid`
is false — refuting "does not add an entry to the error list". -/
theorem undelivered_summary_in_error_list :
    validateAndScore id inpA [] = Except.ok reportEmptyA ∧
    reportEmptyA.errors = ["Undelivered packages: PKG1"] ∧
    reportEmptyA.errors ≠ [] ∧
    reportEmptyA.is_valid = false :=
  ⟨rfl, rfl, by decide, rfl⟩

theorem validateAndScore_error_iff (o : List String → List String)
    (inp : InputData) (out : List ActionData) (e : String) :
    validateAndScore o inp out = Except.error e ↔ sortActions out = Except.error e := by
  unfold validateAndScore validateSolution
  rcases hs : sortActions out with e' | acts
  · simp
  · simp

/-- C4. Amended determinism: the evaluation is a pure function of the two
documents and of the iteration order of one Python string set — the
undelivered set joined into the final summary message.  For any two
iteration orders (any two runs) the reports agree on score, every component,
counts, validity, error-list length and on all error messages except
possibly the last (the summary); with at most one undelivered package the
reports are fully identical.  With hash randomization (`PYTHONHASHSEED`
unset), two runs can therefore differ, but only in the order of ids inside
that one summary message. -/
theorem report_deterministic_up_to_set_order
    (o1 o2 : List String → List String) (inp : InputData) (out : List ActionData)
    (h1 : ∀ l : List String, (o1 l).Perm l) (h2 : ∀ l : List String, (o2 l).Perm l) :
    (∀ e, validateAndScore o1 inp out = Except.error e ↔
      validateAndScore o2 inp out = Except.error e) ∧
    (∀ r1 r2, validateAndScore o1 inp out = Except.ok r1 →
      validateAndScore o2 inp out = Except.ok r2 →
      r1.score = r2.score ∧ r1.completion_time = r2.completion_time ∧
      r1.undelivered_penalty = r2.undelivered_penalty ∧
      r1.invalid_action_penalty = r2.invalid_action_penalty ∧
      r1.warnings = r2.warnings ∧
      r1.delivered_packages = r2.delivered_packages ∧
      r1.total_packages = r2.total_packages ∧
      r1.is_valid = r2.is_valid ∧
      r1.errors.length = r2.errors.length ∧
      r1.errors.dropLast = r2.errors.dropLast ∧
      ((undeliveredList inp (runFold inp out)).length ≤ 1 → r1 = r2)) := by
  constructor
  · intro e
    rw [validateAndScore_error_iff o1 inp out e, validateAndScore_error_iff o2 inp out e]
  · intro r1 r2 hr1 hr2
    obtain ⟨-, hreq1⟩ := validateAndScore_ok_shape o1 inp out r1 hr1
    obtain ⟨-, hreq2⟩ := validateAndScore_ok_shape o2 inp out r2 hr2
    rw [show (sortByTime out).foldl (processAction (mkCtx inp)) (initState inp (mkCtx inp)) =
          runFold inp out from rfl] at hreq1 hreq2
    subst hreq1
    subst hreq2
    by_cases hem : (undeliveredList inp (runFold inp out)).isEmpty = true
    · have hsame : sweepUndelivered o1 inp (runFold inp out) =
          sweepUndelivered o2 inp (runFold inp out) := by
        simp only [sweepUndelivered, hem, if_true]
      rw [hsame]
      exact ⟨rfl, rfl, rfl, rfl, rfl, rfl, rfl, rfl, rfl, rfl, fun _ => rfl⟩
    · have he1 := sweepUndelivered_errors o1 inp (runFold inp out)
      have he2 := sweepUndelivered_errors o2 inp (runFold inp out)
      rw [if_neg hem] at he1 he2
      have hct : (sweepUndelivered o1 inp (runFold inp out)).completion_time =
          (sweepUndelivered o2 inp (runFold inp out)).completion_time := by
        rw [sweepUndelivered_completion, sweepUndelivered_completion]
      have hu : (sweepUndelivered o1 inp (runFold inp out)).undelivered_penalty =
          (sweepUndelivered o2 inp (runFold inp out)).undelivered_penalty := by
        rw [sweepUndelivered_und, sweepUndelivered_und]
      have hi : (sweepUndelivered o1 inp (runFold inp out)).invalid_action_penalty =
          (sweepUndelivered o2 inp (runFold inp out)).invalid_action_penalty := by
        rw [sweepUndelivered_invalid, sweepUndelivered_invalid]
      have hdel : (sweepUndelivered o1 inp (runFold inp out)).delivered_packages =
          (sweepUndelivered o2 inp (runFold inp out)).delivered_packages := by
        rw [sweepUndelivered_delivered, sweepUndelivered_delivered]
      refine ⟨?_, hct, hu, hi, rfl, ?_, rfl, ?_, ?_, ?_, ?_⟩
      · show (sweepUndelivered o1 inp (runFold inp out)).completion_time +
            (sweepUndelivered o1 inp (runFold inp out)).undelivered_penalty +
            (sweepUndelivered o1 inp (runFold inp out)).invalid_action_penalty =
          (sweepUndelivered o2 inp (runFold inp out)).completion_time +
            (sweepUndelivered o2 inp (runFold inp out)).undelivered_penalty +
            (sweepUndelivered o2 inp (runFold inp out)).invalid_action_penalty
        rw [hct, hu, hi]
      · show (sweepUndelivered o1 inp (runFold inp out)).delivered_packages.length =
          (sweepUndelivered o2 inp (runFold inp out)).delivered_packages.length
        rw [hdel]
      · show (sweepUndelivered o1 inp (runFold inp out)).errors.isEmpty =
          (sweepUndelivered o2 inp (runFold inp out)).errors.isEmpty
        rw [he1, he2]
        have happ : ∀ (l : List String) (m : String), (l ++ [m]).isEmpty = false := by
          intro l m
          cases l <;> rfl
        rw [happ, happ]
      · show (sweepUndelivered o1 inp (runFold inp out)).errors.length =
          (sweepUndelivered o2 inp (runFold inp out)).errors.length
        rw [he1, he2]
        simp
      · show (sweepUndelivered o1 inp (runFold inp out)).errors.dropLast =
          (sweepUndelivered o2 inp (runFold inp out)).errors.dropLast
        rw [he1, he2, List.dropLast_concat, List.dropLast_concat]
      · intro hle
        have hne : undeliveredList inp (runFold inp out) ≠ [] := by
          intro hcontra
          rw [hcontra] at hem
          exact hem rfl
        have hsing : ∃ x, undeliveredList inp (runFold inp out) = [x] := by
          rcases hu : undeliveredList inp (runFold inp out) with _ | ⟨x, tl⟩
          · exact absurd hu hne
          · rcases tl with _ | ⟨y, tl'⟩
            · exact ⟨x, rfl⟩
            · rw [hu] at hle
              simp at hle
        obtain ⟨x, hx⟩ := hsing
        have ho1 : o1 (undeliveredList inp (runFold inp out)) =
            undeliveredList inp (runFold inp out) := by
          rw [hx]
          exact (h1 [x]).eq_singleton
        have ho2 : o2 (undeliveredList inp (runFold inp out)) =
            undeliveredList inp (runFold inp out) := by
          rw [hx]
          exact (h2 [x]).eq_singleton
        have hsame : sweepUndelivered o1 inp (runFold inp out) =
            sweepUndelivered o2 inp (runFold inp out) := by
          simp only [sweepUndelivered, hem, if_false, ho1, ho2]
        rw [hsame]

/-- C4 witness: with one undelivered package the singleton set has a unique
iteration order, so the identity order and the reversed order yield the very
same report. -/
theorem report_deterministic_up_to_set_order_witness :
    validateAndScore id inpA [] = Except.ok reportEmptyA ∧
    validateAndScore List.reverse inpA [] = Except.ok reportEmptyA ∧
    reportEmptyA.score = reportEmptyA.score :=
  ⟨rfl, rfl,
   ((report_deterministic_up_to_set_order id List.reverse inpA []
       (fun l => List.Perm.refl l) (fun l => List.reverse_perm l)).2
     reportEmptyA reportEmptyA rfl rfl).1⟩

/-- C4 counterexample: with two undelivered packages, two runs whose set
iteration orders differ (identity versus reversed, as under two different
hash seeds) produce reports whose error lists — hence the reports, hence the
printed output — are not identical, refuting bitwise idempotence across
runs. -/
theorem set_order_changes_report :
    validateAndScore id inpB [] = Except.ok reportB ∧
    validateAndScore List.reverse inpB [] = Except.ok reportBrev ∧
    reportB ≠ reportBrev ∧
    validateAndScore id inpB [] ≠ validateAndScore List.reverse inpB [] := by
  refine ⟨rfl, rfl, by decide, ?_⟩
  intro h
  rw [show validateAndScore id inpB [] = Except.ok reportB from rfl,
      show validateAndScore List.reverse inpB [] = Except.ok reportBrev from rfl] at h
  injection h with h'
  exact (by decide : reportB ≠ reportBrev) h'
